import Mathlib

/-!
Verification of the SelectionEngine of the zpaint repository: selection
masks, morphology, color-range selection, quick selection and subject
selection, refinement and selection algebra.

Modelling conventions (shallow embedding of the TypeScript source):

* An `ImageData` buffer is a `Buf`: a width, a height and a total function
  `data : ℕ → ℕ` over flat RGBA byte indices (pixel `p` occupies indices
  `4*p .. 4*p+3`).  Freshly allocated buffers are zero-filled, as
  `new ImageData` is; indices past `4*width*height` are an artifact of the
  total function and are fixed to the source value (or `0` for fresh
  buffers) — theorems only quantify over in-range indices.
* JavaScript numbers are modelled by exact rationals `ℚ`.  `Math.sqrt` and
  `Math.exp` return irrational values, so they are modelled by the
  computable stand-ins `ratSqrt` and `jsExp`; the only facts about them any
  theorem below uses are sign facts (`ratSqrt q = 0` iff the integer `q` is
  `0`, `jsExp` is positive), which agree with the real functions.
* Stores into a `Uint8ClampedArray` clamp to `0..255`; `NaN` stores as `0`
  and infinities clamp to the respective end.  Where division by zero or
  `NaN` can actually arise (`selectColorRange`), the JavaScript special
  values are modelled explicitly by the `JSNum` type.
* The worklist loops (`quickSelect`, the subject-selection flood fill) are
  modelled by a step function iterated on explicit fuel.  Every iteration
  pops one worklist entry, pops of already-visited entries push nothing and
  a fresh visit pushes at most four entries, so a run starting from a
  single seed performs at most `1 + 4*width*height` pops; the baked-in fuel
  `1 + 5*width*height` therefore always runs the loop to completion.
-/

namespace ZPaint

/-- Flat RGBA byte buffer standing for a DOM `ImageData`. -/
structure Buf where
  width : ℕ
  height : ℕ
  data : ℕ → ℕ

/-- Integer pixel rectangle, as in the `bounds` field of a `Selection`. -/
structure Rect where
  x : ℕ
  y : ℕ
  width : ℕ
  height : ℕ
deriving DecidableEq

/-- The `Selection` interface of `types.ts`. -/
structure Selection where
  mask : Buf
  bounds : Rect
  active : Bool

/-- The `SelectionMode` union type of `types.ts`. -/
inductive SelectionMode where
  | new
  | add
  | subtract
  | intersect
deriving DecidableEq

/-- A fresh zero-filled `new ImageData(width, height)`. -/
def Buf.zero (w h : ℕ) : Buf := ⟨w, h, fun _ => 0⟩

/-- `Math.round`: round half away from zero is half-up on the values that
reach it here; JavaScript rounds halves toward `+∞`. -/
def jsRound (q : ℚ) : ℤ := ⌊q + 1/2⌋

/-- Store of an integer into a `Uint8ClampedArray` slot: clamp to `0..255`. -/
def toByte (n : ℤ) : ℕ := (min 255 (max 0 n)).toNat

/-- Newton iteration for the floor square root, structurally recursive on
explicit fuel so that the kernel can evaluate it (`Nat.sqrt` is defined by
well-founded recursion, which kernel reduction cannot unfold). -/
def isqrtGo (n : ℕ) : ℕ → ℕ → ℕ
  | 0, g => g
  | fuel + 1, g =>
    let g2 := (g + n / g) / 2
    if g2 < g then isqrtGo n fuel g2 else g

/-- Floor square root (agrees with `Nat.sqrt`). -/
def isqrt (n : ℕ) : ℕ := if n ≤ 1 then n else isqrtGo n n n

/-- Computable stand-in for `Math.sqrt` on the nonnegative rationals that
occur below: the floor square root of the numerator.  It is zero exactly at
zero and positive on positive integers, which is all any theorem in this
file uses about it. -/
def ratSqrt (q : ℚ) : ℚ := (isqrt q.num.toNat : ℚ)

/-- Computable stand-in for `Math.exp`.  It is positive everywhere and equals
`1` at `0`, which is all the Gaussian-kernel normalisation below relies on. -/
def jsExp (q : ℚ) : ℚ := if q < 0 then 1 / (1 - q) else 1 + q

/-- The integer offsets `-r, …, r` enumerated by a JavaScript loop
`for (let d = -r; d <= r; d++)`; empty when `r < 0`. -/
def offsets (r : ℤ) : List ℤ := (List.range (2 * r + 1).toNat).map (fun k => (Int.ofNat k) - r)

/-- The list of mask samples `data[(ny*width+nx)*4]` collected by the
circular-neighbourhood loops of `dilate` and `erode` around pixel `(x, y)`:
offsets run over `-⌈radius⌉ … ⌈radius⌉`, offsets with
`dx*dx + dy*dy > radius*radius` are skipped, and out-of-bounds neighbours
are skipped (not treated as 0). -/
def neighborVals (m : Buf) (radius : ℚ) (x y : ℕ) : List ℕ :=
  let r : ℤ := ⌈radius⌉
  (offsets r).flatMap (fun dy =>
    (offsets r).filterMap (fun dx =>
      if ((dx * dx + dy * dy : ℤ) : ℚ) > radius * radius then none
      else
        let nx : ℤ := x + dx
        let ny : ℤ := y + dy
        if nx < 0 ∨ (m.width : ℤ) ≤ nx ∨ ny < 0 ∨ (m.height : ℤ) ≤ ny then none
        else some (m.data (4 * (ny.toNat * m.width + nx.toNat)))))

/-- `SelectionEngine.dilate`: each output pixel is the max over the circular
neighbourhood (`0` when the neighbourhood is empty, as `maxVal` starts at 0);
R, G and B receive the value and alpha is set to 255. -/
def dilate (m : Buf) (radius : ℚ) : Buf :=
  ⟨m.width, m.height, fun i =>
    if i < 4 * m.width * m.height then
      if i % 4 = 3 then 255
      else (neighborVals m radius (i / 4 % m.width) (i / 4 / m.width)).foldl max 0
    else 0⟩

/-- `SelectionEngine.erode`: min over the same neighbourhood, starting from
255. -/
def erode (m : Buf) (radius : ℚ) : Buf :=
  ⟨m.width, m.height, fun i =>
    if i < 4 * m.width * m.height then
      if i % 4 = 3 then 255
      else (neighborVals m radius (i / 4 % m.width) (i / 4 / m.width)).foldl min 255
    else 0⟩

/-- `SelectionEngine.morphClose`: dilate then erode with the same radius. -/
def morphClose (m : Buf) (radius : ℚ) : Buf := erode (dilate m radius) radius

/-- Tight bounds of the nonzero-strength pixels, `SelectionEngine.computeBounds`.
The source folds min/max coordinates over all pixels with `data[idx] > 0`
and falls back to the zero rectangle when the fold found nothing. -/
def computeBounds (m : Buf) : Rect :=
  let ps := (List.range (m.width * m.height)).filter (fun p => 0 < m.data (4 * p))
  let minX := ps.foldl (fun a p => min a (p % m.width)) m.width
  let minY := ps.foldl (fun a p => min a (p / m.width)) m.height
  let maxX := ps.foldl (fun a p => max a (p % m.width)) 0
  let maxY := ps.foldl (fun a p => max a (p / m.width)) 0
  if maxX < minX ∨ maxY < minY then ⟨0, 0, 0, 0⟩
  else ⟨minX, minY, maxX - minX + 1, maxY - minY + 1⟩

/-- `SelectionEngine.growSelection`: dilate the mask by `pixels`. -/
def growSelection (s : Selection) (pixels : ℚ) : Selection :=
  let m := dilate s.mask pixels
  ⟨m, computeBounds m, true⟩

/-- `SelectionEngine.shrinkSelection`: erode the mask by `pixels`. -/
def shrinkSelection (s : Selection) (pixels : ℚ) : Selection :=
  let m := erode s.mask pixels
  ⟨m, computeBounds m, true⟩

/-- Grayscale luminance `0.299 R + 0.587 G + 0.114 B` of pixel `p`. -/
def gray (img : Buf) (p : ℕ) : ℚ :=
  (299 / 1000 : ℚ) * (img.data (4 * p) : ℚ) +
  (587 / 1000 : ℚ) * (img.data (4 * p + 1) : ℚ) +
  (114 / 1000 : ℚ) * (img.data (4 * p + 2) : ℚ)

/-- The flattened 3×3 Sobel kernels of `computeEdgeMap`. -/
def sobelX : List ℤ := [-1, 0, 1, -2, 0, 2, -1, 0, 1]

def sobelY : List ℤ := [-1, -2, -1, 0, 0, 0, 1, 2, 1]

/-- Kernel entry at offset `(kx, ky)`: index `(ky+1)*3 + (kx+1)`. -/
def sobelAt (l : List ℤ) (kx ky : ℤ) : ℤ := l.getD ((ky + 1) * 3 + (kx + 1)).toNat 0

/-- One directional Sobel convolution of the luminance at interior pixel
`(x, y)` (callers guarantee `1 ≤ x < width-1`, `1 ≤ y < height-1`). -/
def sobelConv (img : Buf) (l : List ℤ) (x y : ℕ) : ℚ :=
  (offsets 1).foldl (fun acc ky =>
    (offsets 1).foldl (fun acc2 kx =>
      acc2 + gray img ((((y : ℤ) + ky).toNat) * img.width + ((x : ℤ) + kx).toNat) *
        ((sobelAt l kx ky : ℤ) : ℚ)) acc) 0

/-- Unnormalised gradient magnitude `sqrt(gx² + gy²)`; border pixels (the
source skips a 1-pixel border) stay at 0. -/
def rawMag (img : Buf) (p : ℕ) : ℚ :=
  let x := p % img.width
  let y := p / img.width
  if 1 ≤ x ∧ x + 1 < img.width ∧ 1 ≤ y ∧ y + 1 < img.height then
    ratSqrt (sobelConv img sobelX x y * sobelConv img sobelX x y +
             sobelConv img sobelY x y * sobelConv img sobelY x y)
  else 0

/-- `SelectionEngine.computeEdgeMap`: Sobel magnitude over luminance,
normalised by the global maximum; if the maximum is 0 all values stay 0. -/
def computeEdgeMap (img : Buf) : ℕ → ℚ :=
  let maxEdge := (List.range (img.width * img.height)).foldl
    (fun a p => max a (rawMag img p)) 0
  if 0 < maxEdge then fun p => rawMag img p / maxEdge else fun p => rawMag img p

/-- FIFO worklist discipline: new entries are appended after the remaining
ones (`queue.push` + `queue.shift()` of the source's `quickSelect`). -/
def fifoSched {α : Type} (news rest : List α) : List α := rest ++ news

/-- LIFO worklist discipline: the most recently pushed entry is taken first
(`queue.push` + `queue.pop()`); prepending the reversed pushes to a
head-popped list realises exactly that order. -/
def lifoSched {α : Type} (news rest : List α) : List α := news.reverse ++ rest

/-- Parameters of one `quickSelect` call that stay fixed during the loop. -/
structure QSParams where
  img : Buf
  edges : ℕ → ℚ
  startX : ℚ
  startY : ℚ
  maxRadius : ℚ
  targetR : ℕ
  targetG : ℕ
  targetB : ℕ
  mode : SelectionMode

/-- Loop state of `quickSelect`.  `visited` is the `Set<number>` of the
source; `log` (positions with the depth and fractional coordinates at which
they were first visited) and `accepted` (positions that reached the
mask-write branch) are ghost instrumentation recording what the loop did —
they influence nothing. -/
structure QSState where
  visited : List ℕ
  log : List (ℕ × ℕ × ℚ × ℚ)
  accepted : List ℕ
  mask : ℕ → ℕ
  queue : List (ℚ × ℚ × ℕ)

/-- The source compares `Math.sqrt((x-startX)² + (y-startY)²) > maxRadius`.
This models the comparison squared, which is equivalent over the reals when
`maxRadius ≥ 0`; for `maxRadius < 0` the nonnegative square root always
exceeds it, so the test is always true. -/
def qsDistReject (P : QSParams) (x y : ℚ) : Bool :=
  if P.maxRadius < 0 then true
  else decide (P.maxRadius * P.maxRadius <
    (x - P.startX) * (x - P.startX) + (y - P.startY) * (y - P.startY))

/-- The mask write of an accepted cell: modes `new`/`add` set all four
channels of the pixel to 255, `subtract` sets them to 0, any other mode
writes nothing. -/
def qsWrite (mode : SelectionMode) (pos : ℕ) (mask : ℕ → ℕ) : ℕ → ℕ :=
  match mode with
  | .new => fun i => if i / 4 = pos then 255 else mask i
  | .add => fun i => if i / 4 = pos then 255 else mask i
  | .subtract => fun i => if i / 4 = pos then 0 else mask i
  | .intersect => mask

/-- One iteration of the `quickSelect` flood loop, parametric in the
worklist discipline (the source uses `fifoSched`). -/
def qsStepWith (sched : List (ℚ × ℚ × ℕ) → List (ℚ × ℚ × ℕ) → List (ℚ × ℚ × ℕ))
    (P : QSParams) (st : QSState) : QSState :=
  match st.queue with
  | [] => st
  | (x, y, depth) :: rest =>
    let w := P.img.width
    let h := P.img.height
    let ix : ℤ := ⌊x⌋
    let iy : ℤ := ⌊y⌋
    if ix < 0 ∨ (w : ℤ) ≤ ix ∨ iy < 0 ∨ (h : ℤ) ≤ iy then { st with queue := rest }
    else
      let pos : ℕ := iy.toNat * w + ix.toNat
      if pos ∈ st.visited then { st with queue := rest }
      else
        let st1 : QSState := { st with
          visited := pos :: st.visited
          log := (pos, depth, x, y) :: st.log
          queue := rest }
        if qsDistReject P x y then st1
        else if 3 / 10 < P.edges pos ∧ 1 < depth then st1
        else
          let dr := ((P.img.data (pos * 4) : ℤ) - (P.targetR : ℤ)).natAbs
          let dg := ((P.img.data (pos * 4 + 1) : ℤ) - (P.targetG : ℤ)).natAbs
          let db := ((P.img.data (pos * 4 + 2) : ℤ) - (P.targetB : ℤ)).natAbs
          if 150 < dr + dg + db ∧ 1 < depth then st1
          else
            let st2 := { st1 with
              accepted := pos :: st1.accepted
              mask := qsWrite P.mode pos st1.mask }
            if (depth : ℚ) < P.maxRadius then
              { st2 with queue := sched [(x - 1, y, depth + 1), (x + 1, y, depth + 1),
                  (x, y - 1, depth + 1), (x, y + 1, depth + 1)] rest }
            else st2

/-- Fuel-indexed iteration of the loop; stops when the worklist is empty. -/
def qsRunWith (sched : List (ℚ × ℚ × ℕ) → List (ℚ × ℚ × ℕ) → List (ℚ × ℚ × ℕ))
    (P : QSParams) : ℕ → QSState → QSState
  | 0, st => st
  | Nat.succ n, st =>
    match st.queue with
    | [] => st
    | _ :: _ => qsRunWith sched P n (qsStepWith sched P st)

/-- The fixed per-call data of `quickSelect`: edge map, seed colour sampled
at the floored seed coordinates, and `maxRadius = radius * 3`. -/
def qsParams (img : Buf) (startX startY radius : ℚ) (mode : SelectionMode) : QSParams :=
  let startIdx := (⌊startY⌋.toNat * img.width + ⌊startX⌋.toNat) * 4
  { img := img, edges := computeEdgeMap img, startX := startX, startY := startY,
    maxRadius := radius * 3,
    targetR := img.data startIdx, targetG := img.data (startIdx + 1),
    targetB := img.data (startIdx + 2), mode := mode }

/-- Initial loop state: mask starts as a copy of the existing selection's
mask (or a fresh zero mask), the worklist holds the seed at depth 0. -/
def qsInit (img : Buf) (startX startY : ℚ) (existing : Option Buf) : QSState :=
  { visited := [], log := [], accepted := [],
    mask := match existing with
      | some e => fun i => if i < 4 * img.width * img.height then e.data i else 0
      | none => fun _ => 0,
    queue := [(startX, startY, 0)] }

/-- Full `quickSelect` loop run.  Every pop consumes one worklist entry and
only a fresh visit (at most `width*height` of them) pushes, at most four
entries, so `1 + 5*width*height` iterations always drain the worklist. -/
def quickSelectRun (img : Buf) (startX startY radius : ℚ) (mode : SelectionMode)
    (existing : Option Buf) : QSState :=
  qsRunWith fifoSched (qsParams img startX startY radius mode)
    (1 + 5 * img.width * img.height) (qsInit img startX startY existing)

/-- `SelectionEngine.quickSelect`. -/
def quickSelect (img : Buf) (startX startY radius : ℚ) (mode : SelectionMode)
    (existing : Option Buf) : Selection :=
  let m : Buf := ⟨img.width, img.height, (quickSelectRun img startX startY radius mode existing).mask⟩
  ⟨m, computeBounds m, true⟩

/-- LIFO variant of the `quickSelect` run.  It differs from the source only
in the worklist discipline; it exists to state the specification's
assertion that the traversal order does not affect the selected pixels. -/
def quickSelectStackRun (img : Buf) (startX startY radius : ℚ) (mode : SelectionMode)
    (existing : Option Buf) : QSState :=
  qsRunWith lifoSched (qsParams img startX startY radius mode)
    (1 + 5 * img.width * img.height) (qsInit img startX startY existing)

/-- Mask of the LIFO variant packaged like `quickSelect`'s result. -/
def quickSelectStack (img : Buf) (startX startY radius : ℚ) (mode : SelectionMode)
    (existing : Option Buf) : Selection :=
  let m : Buf := ⟨img.width, img.height, (quickSelectStackRun img startX startY radius mode existing).mask⟩
  ⟨m, computeBounds m, true⟩

/-- JavaScript double restricted to the values `selectColorRange` can
produce: a finite (exactly modelled) rational, the two infinities, or NaN. -/
inductive JSNum where
  | fin (q : ℚ)
  | posinf
  | neginf
  | nan
deriving DecidableEq

/-- `a / b` for finite `a`, `b`, with the IEEE special cases `0/0 = NaN` and
`a/0 = ±∞`. -/
def jsDivFin (a b : ℚ) : JSNum :=
  if b = 0 then (if a = 0 then .nan else if 0 < a then .posinf else .neginf)
  else .fin (a / b)

/-- `1 - x` on JavaScript numbers. -/
def jsOneMinus : JSNum → JSNum
  | .fin q => .fin (1 - q)
  | .posinf => .neginf
  | .neginf => .posinf
  | .nan => .nan

/-- `Math.max(0, x)`: NaN if the argument is NaN (JavaScript `Math.max`
propagates NaN), otherwise the maximum. -/
def jsMaxZero : JSNum → JSNum
  | .fin q => .fin (max 0 q)
  | .posinf => .posinf
  | .neginf => .fin 0
  | .nan => .nan

/-- `x * 255`. -/
def jsTimes255 : JSNum → JSNum
  | .fin q => .fin (q * 255)
  | .posinf => .posinf
  | .neginf => .neginf
  | .nan => .nan

/-- `Math.round` on JavaScript numbers (identity on non-finite values). -/
def jsRoundNum : JSNum → JSNum
  | .fin q => .fin ((jsRound q : ℤ) : ℚ)
  | x => x

/-- Store into a `Uint8ClampedArray` slot (`ToUint8Clamp`): NaN becomes 0,
infinities clamp to the ends, finite values round and clamp. -/
def jsToClampedByte : JSNum → ℕ
  | .fin q => toByte (jsRound q)
  | .posinf => 255
  | .neginf => 0
  | .nan => 0

/-- Per-pixel value of `selectColorRange`:
`round(clamp(1 - dist/maxDist) * 255)` with `maxDist = fuzziness * 2.55`,
keeping JavaScript's division-by-zero behaviour when `maxDist = 0`. -/
def colorRangeValue (img : Buf) (tr tg tb : ℕ) (fuzziness : ℚ) (p : ℕ) : ℕ :=
  let dr : ℚ := (img.data (4 * p) : ℚ) - (tr : ℚ)
  let dg : ℚ := (img.data (4 * p + 1) : ℚ) - (tg : ℚ)
  let db : ℚ := (img.data (4 * p + 2) : ℚ) - (tb : ℚ)
  let dist := ratSqrt (dr * dr + dg * dg + db * db)
  let maxDist := fuzziness * (51 / 20)
  jsToClampedByte (jsRoundNum (jsTimes255 (jsMaxZero (jsOneMinus (jsDivFin dist maxDist)))))

/-- `SelectionEngine.selectColorRange` (the `sampled` behaviour implemented
by the source: direct colour distance to the target). -/
def selectColorRange (img : Buf) (tr tg tb : ℕ) (fuzziness : ℚ) : Selection :=
  let m : Buf := ⟨img.width, img.height, fun i =>
    if i < 4 * img.width * img.height then colorRangeValue img tr tg tb fuzziness (i / 4)
    else 0⟩
  ⟨m, computeBounds m, true⟩

/-- Clamp-to-edge sampling index of the separable blur passes. -/
def clampIdx (n x : ℕ) (i : ℤ) : ℕ := (max 0 (min ((n : ℤ) - 1) ((x : ℤ) + i))).toNat

/-- `SelectionEngine.gaussianBlur`: identity for `radius < 0.5`, otherwise a
separable two-pass convolution with kernel support `⌈radius*3⌉`, sigma
`radius`, weights `exp(-i²/(2σ²))` normalised to sum 1, clamp-to-edge
sampling, channel R as input, output written to R, G, B with alpha 255. -/
def gaussianBlur (m : Buf) (radius : ℚ) : Buf :=
  if radius < 1 / 2 then m
  else
    let w := m.width
    let h := m.height
    let r : ℤ := ⌈radius * 3⌉
    let ks := offsets r
    let kernel0 := ks.map (fun i => jsExp (-(((i * i : ℤ) : ℚ)) / (2 * radius * radius)))
    let s := kernel0.foldl (fun a b => a + b) 0
    let pairs := ks.zip (kernel0.map (fun v => v / s))
    let temp : ℕ → ℚ := fun p =>
      pairs.foldl (fun acc ik =>
        acc + (m.data ((p / w * w + clampIdx w (p % w) ik.1) * 4) : ℚ) * ik.2) 0
    ⟨w, h, fun j =>
      if j < 4 * w * h then
        if j % 4 = 3 then 255
        else
          toByte (jsRound (pairs.foldl (fun acc ik =>
            acc + temp (clampIdx h (j / 4 / w) ik.1 * w + j / 4 % w) * ik.2) 0))
      else 0⟩

/-- Insertion into an ascending list, for the model of
`values.sort((a, b) => a - b)`. -/
def insertAsc (a : ℕ) : List ℕ → List ℕ
  | [] => [a]
  | b :: t => if a ≤ b then a :: b :: t else b :: insertAsc a t

/-- Ascending insertion sort (structurally recursive; the sorted result is
what the source's comparator sort produces on numeric keys). -/
def insertionSort : List ℕ → List ℕ
  | [] => []
  | a :: t => insertAsc a (insertionSort t)

/-- `SelectionEngine.medianFilter`: lower median (index `⌊count/2⌋` of the
ascending sort) of the in-bounds samples of the square neighbourhood. -/
def medianFilter (m : Buf) (radius : ℚ) : Buf :=
  let r : ℤ := ⌈radius⌉
  ⟨m.width, m.height, fun j =>
    if j < 4 * m.width * m.height then
      if j % 4 = 3 then 255
      else
        let x := j / 4 % m.width
        let y := j / 4 / m.width
        let values := (offsets r).flatMap (fun dy =>
          (offsets r).filterMap (fun dx =>
            let nx : ℤ := x + dx
            let ny : ℤ := y + dy
            if nx < 0 ∨ (m.width : ℤ) ≤ nx ∨ ny < 0 ∨ (m.height : ℤ) ≤ ny then none
            else some (m.data (4 * (ny.toNat * m.width + nx.toNat)))))
        (insertionSort values).getD (values.length / 2) 0
    else 0⟩

/-- `SelectionEngine.featherSelection`: Gaussian blur of the mask. -/
def featherSelection (s : Selection) (radius : ℚ) : Selection :=
  let m := gaussianBlur s.mask radius
  ⟨m, computeBounds m, true⟩

/-- `SelectionEngine.smoothSelection`: median filter of the mask. -/
def smoothSelection (s : Selection) (radius : ℚ) : Selection :=
  let m := medianFilter s.mask radius
  ⟨m, computeBounds m, true⟩

/-- `SelectionEngine.invertSelection`: `255 - value` on R, G, B, alpha
forced to 255, bounds reset to the full canvas rectangle. -/
def invertSelection (sel : Selection) : Selection :=
  let m := sel.mask
  let m' : Buf := ⟨m.width, m.height, fun i =>
    if i < 4 * m.width * m.height then
      if i % 4 = 3 then 255 else 255 - m.data i
    else m.data i⟩
  ⟨m', ⟨0, 0, m.width, m.height⟩, true⟩

/-- Per-pixel combination rule of `combineSelections` (`new` is the switch
default: take `b`); ℕ subtraction is truncated, matching `Math.max(0, a-b)`. -/
def combineVal (mode : SelectionMode) (a b : ℕ) : ℕ :=
  match mode with
  | .add => min 255 (a + b)
  | .subtract => a - b
  | .intersect => min a b
  | .new => b

/-- `SelectionEngine.combineSelections`: per-pixel combination of channel R
of the two masks, written to R, G, B with alpha 255.  The engine dimensions
equal the masks'. -/
def combineSelections (a b : Selection) (mode : SelectionMode) : Selection :=
  let w := a.mask.width
  let h := a.mask.height
  let m : Buf := ⟨w, h, fun i =>
    if i < 4 * w * h then
      if i % 4 = 3 then 255
      else combineVal mode (a.mask.data (4 * (i / 4))) (b.mask.data (4 * (i / 4)))
    else 0⟩
  ⟨m, computeBounds m, true⟩

/-- `SelectionEngine.selectionFromAlpha`: mask strength = source alpha,
replicated to R, G, B, alpha forced 255. -/
def selectionFromAlpha (img : Buf) : Selection :=
  let m : Buf := ⟨img.width, img.height, fun i =>
    if i < 4 * img.width * img.height then
      if i % 4 = 3 then 255 else img.data (4 * (i / 4) + 3)
    else 0⟩
  ⟨m, computeBounds m, true⟩

/-- `SelectionEngine.applySelectionAsAlpha`: in place on the caller's image,
`alpha := min(alpha, mask R)`; R, G, B untouched (modelled functionally as
the updated buffer). -/
def applySelectionAsAlpha (img : Buf) (sel : Selection) : Buf :=
  ⟨img.width, img.height, fun i =>
    if i < 4 * img.width * img.height ∧ i % 4 = 3 then
      min (img.data i) (sel.mask.data (i - 3))
    else img.data i⟩

/-- A partially selected pixel (`0 < value < 255`). -/
def softPx (m : Buf) (p : ℕ) : Bool :=
  decide (0 < m.data (4 * p)) && decide (m.data (4 * p) < 255)

/-- A pixel whose 8-neighbourhood contains a mask value differing from its
own by more than 128 (`findEdgeZone`'s neighbour test). -/
def isEdgePx (m : Buf) (p : ℕ) : Bool :=
  (offsets 1).any (fun dy => (offsets 1).any (fun dx =>
    let nx : ℤ := (p % m.width : ℕ) + dx
    let ny : ℤ := (p / m.width : ℕ) + dy
    if nx < 0 ∨ (m.width : ℤ) ≤ nx ∨ ny < 0 ∨ (m.height : ℤ) ≤ ny then false
    else decide (128 <
      ((m.data (4 * (ny.toNat * m.width + nx.toNat)) : ℤ) - (m.data (4 * p) : ℤ)).natAbs)))

/-- `SelectionEngine.findEdgeZone` as a membership predicate: a pixel is in
the zone if it is partially selected itself, or lies within the circular
`radius`-disc of some non-partial pixel whose neighbourhood test fired.
(The source's integer loop offsets are modelled with `⌊radius⌋` bounds.) -/
def findEdgeZone (m : Buf) (radius : ℚ) : ℕ → Bool := fun p =>
  softPx m p ||
  (List.range (m.width * m.height)).any (fun q =>
    !(softPx m q) && isEdgePx m q &&
    (let dx : ℤ := (p % m.width : ℕ) - ((q % m.width : ℕ) : ℤ)
     let dy : ℤ := (p / m.width : ℕ) - ((q / m.width : ℕ) : ℤ)
     decide (-⌊radius⌋ ≤ dx) && decide (dx ≤ ⌊radius⌋) &&
     decide (-⌊radius⌋ ≤ dy) && decide (dy ≤ ⌊radius⌋) &&
     decide (((dx * dx + dy * dy : ℤ) : ℚ) ≤ radius * radius)))

/-- `SelectionEngine.applySmartRadius`: inside the edge zone, where the
image edge strength exceeds 0.5, binarise R against threshold 127 and copy
the new R into G and B; alpha and everything else untouched. -/
def applySmartRadius (m : Buf) (edges : ℕ → ℚ) (zone : ℕ → Bool) : Buf :=
  ⟨m.width, m.height, fun j =>
    if j < 4 * m.width * m.height ∧ (j % 4 = 0 ∨ j % 4 = 1 ∨ j % 4 = 2) ∧
       zone (j / 4) = true ∧ 1 / 2 < edges (j / 4) then
      (if 127 < m.data (4 * (j / 4)) then 255 else 0)
    else m.data j⟩

/-- `SelectionEngine.applyContrast`: per-pixel S-curve on R, G, B
(`Math.max(0, Math.min(255, Math.round(((v/255 - 0.5)(1+amount) + 0.5)*255)))`),
alpha untouched. -/
def applyContrast (m : Buf) (amount : ℚ) : Buf :=
  ⟨m.width, m.height, fun j =>
    if j < 4 * m.width * m.height ∧ (j % 4 = 0 ∨ j % 4 = 1 ∨ j % 4 = 2) then
      toByte (jsRound ((((m.data (4 * (j / 4)) : ℚ) / 255 - 1 / 2) * (1 + amount) + 1 / 2) * 255))
    else m.data j⟩

/-- `RefineEdgeOptions` (decontaminate fields carried but unused by the
pixel pipeline, as in the source). -/
structure RefineEdgeOptions where
  radius : ℚ
  smooth : ℚ
  feather : ℚ
  contrast : ℚ
  shift : ℚ
  decontaminate : Bool
  decontaminateAmount : ℚ

/-- `SelectionEngine.refineEdge`: the six-stage pipeline on a copy of the
mask (edge zone from the pre-pipeline mask, smart radius only when
`radius > 0`, then conditional smooth, feather, contrast and edge shift). -/
def refineEdge (sel : Selection) (img : Buf) (o : RefineEdgeOptions) : Selection :=
  let m0 := sel.mask
  let zone := findEdgeZone m0 o.radius
  let m1 := if 0 < o.radius then applySmartRadius m0 (computeEdgeMap img) zone else m0
  let m2 := if 0 < o.smooth then gaussianBlur m1 (o.smooth / 20) else m1
  let m3 := if 0 < o.feather then gaussianBlur m2 o.feather else m2
  let m4 := if 0 < o.contrast then applyContrast m3 (o.contrast / 50) else m3
  let m5 :=
    if o.shift ≠ 0 then
      if 0 < o.shift then dilate m4 |o.shift / 10| else erode m4 |o.shift / 10|
    else m4
  ⟨m5, computeBounds m5, true⟩

/-- Per-pixel saliency of `selectSubject`:
`0.3·edge + 0.4·centerBias + 0.3·(saturation/255)`. -/
def saliency (img : Buf) : ℕ → ℚ := fun p =>
  let centerX : ℚ := (img.width : ℚ) / 2
  let centerY : ℚ := (img.height : ℚ) / 2
  let maxDist := ratSqrt (centerX * centerX + centerY * centerY)
  let dx : ℚ := ((p % img.width : ℕ) : ℚ) - centerX
  let dy : ℚ := ((p / img.width : ℕ) : ℚ) - centerY
  let centerBias := 1 - ratSqrt (dx * dx + dy * dy) / maxDist * (1 / 2)
  let r := img.data (4 * p)
  let g := img.data (4 * p + 1)
  let b := img.data (4 * p + 2)
  let sat : ℚ := ((max r (max g b) - min r (min g b) : ℕ) : ℚ)
  computeEdgeMap img p * (3 / 10) + centerBias * (2 / 5) + sat / 255 * (3 / 10)

/-- The four guarded neighbour pushes of the subject-selection flood fill
(`px > 0`, `px < width-1` etc.), in source push order. -/
def floodNbrs (w h pos : ℕ) : List ℕ :=
  (if 0 < pos % w then [pos - 1] else []) ++
  (if pos % w + 1 < w then [pos + 1] else []) ++
  (if 0 < pos / w then [pos - w] else []) ++
  (if pos / w + 1 < h then [pos + w] else [])

/-- State of the subject-selection flood fill.  `region` records accepted
positions (source `region.push`; only membership, length and the score are
ever consumed, so the cons order is immaterial). -/
structure FloodState where
  visited : List ℕ
  region : List ℕ
  score : ℚ
  work : List ℕ

/-- One iteration of the subject-selection flood fill, parametric in the
worklist discipline (the source uses `lifoSched`: `push`/`pop`). -/
def floodStep (sal : ℕ → ℚ) (w h : ℕ) (cut : ℚ)
    (sched : List ℕ → List ℕ → List ℕ) (st : FloodState) : FloodState :=
  match st.work with
  | [] => st
  | pos :: rest =>
    if pos ∈ st.visited then { st with work := rest }
    else
      let st1 := { st with visited := pos :: st.visited, work := rest }
      if sal pos < cut then st1
      else { st1 with
        region := pos :: st1.region
        score := st1.score + sal pos
        work := sched (floodNbrs w h pos) rest }

/-- Fuel-indexed flood run; stops when the worklist is empty. -/
def floodRun (sal : ℕ → ℚ) (w h : ℕ) (cut : ℚ)
    (sched : List ℕ → List ℕ → List ℕ) : ℕ → FloodState → FloodState
  | 0, st => st
  | Nat.succ n, st =>
    match st.work with
    | [] => st
    | _ :: _ => floodRun sal w h cut sched n (floodStep sal w h cut sched st)

/-- One flood fill of `selectSubject` from `seed` given the already-visited
set: expansion cutoff `0.35 * 0.8`, LIFO worklist as in the source, fuel
ample as for `quickSelect`. -/
def floodRegion (sal : ℕ → ℚ) (w h : ℕ) (vis0 : List ℕ) (seed : ℕ) : FloodState :=
  floodRun sal w h ((7 / 20) * (4 / 5)) lifoSched (1 + 5 * w * h) ⟨vis0, [], 0, [seed]⟩

/-- Interior scan order of `selectSubject`'s region search (`y` outer, `x`
inner, both skipping the 1-pixel border). -/
def interiorList (w h : ℕ) : List ℕ :=
  (List.range (w * h)).filter (fun p =>
    1 ≤ p % w ∧ p % w + 1 < w ∧ 1 ≤ p / w ∧ p / w + 1 < h)

/-- The region scan of `selectSubject`.  Ghost-instrumented: it records
every flood result (the source pushes only those with more than 100 pixels;
that filter is applied by `retainedRegions` below), together with the final
visited set. -/
def scanRegions (sal : ℕ → ℚ) (w h : ℕ) : List (List ℕ × ℚ) × List ℕ :=
  (interiorList w h).foldl (fun acc idx =>
    if idx ∈ acc.2 ∨ sal idx < 7 / 20 then acc
    else
      let fs := floodRegion sal w h acc.2 idx
      (acc.1 ++ [(fs.region, fs.score)], fs.visited)) ([], [])

/-- The regions the source actually keeps: `region.length > 100`. -/
def retainedRegions (sal : ℕ → ℚ) (w h : ℕ) : List (List ℕ × ℚ) :=
  (scanRegions sal w h).1.filter (fun rs => 100 < rs.1.length)

/-- First region of maximal score — what `regions.sort((a,b) => b.score -
a.score)[0]` selects under JavaScript's stable sort. -/
def pickBest : List (List ℕ × ℚ) → Option (List ℕ × ℚ) := fun l =>
  l.foldl (fun best rs =>
    match best with
    | none => some rs
    | some b => if b.2 < rs.2 then some rs else some b) none

/-- The mask-building tail of `selectSubject` from a given saliency map:
paint the best retained region full-strength, then morphological closing
with radius 3. -/
def selectSubjectFromSaliency (sal : ℕ → ℚ) (w h : ℕ) : Buf :=
  let base : Buf :=
    match pickBest (retainedRegions sal w h) with
    | none => Buf.zero w h
    | some rs => ⟨w, h, fun i => if i < 4 * w * h ∧ i / 4 ∈ rs.1 then 255 else 0⟩
  morphClose base 3

/-- `SelectionEngine.selectSubject`. -/
def selectSubject (img : Buf) : Selection :=
  let m := selectSubjectFromSaliency (saliency img) img.width img.height
  ⟨m, computeBounds m, true⟩

/-- Declarative reachability of the subject-selection flood fill: positions
connected to the seed through pixels of saliency at least `cut` avoiding
the already-visited set.  Used to show the flood's result is independent of
the worklist discipline. -/
inductive FloodReach (sal : ℕ → ℚ) (w h : ℕ) (cut : ℚ) (vis0 : List ℕ) (seed : ℕ) : ℕ → Prop where
  | seedR : cut ≤ sal seed → seed ∉ vis0 → FloodReach sal w h cut vis0 seed seed
  | stepR {p q : ℕ} : FloodReach sal w h cut vis0 seed p → q ∈ floodNbrs w h p →
      cut ≤ sal q → q ∉ vis0 → FloodReach sal w h cut vis0 seed q

/-- The mask invariant of the specification's data model, restricted to the
colour channels: R = G = B at every pixel. -/
def MaskRGB (m : Buf) : Prop :=
  ∀ p, p < m.width * m.height →
    m.data (4 * p) = m.data (4 * p + 1) ∧ m.data (4 * p + 1) = m.data (4 * p + 2)

/-- All in-range bytes of the buffer are at most 255 (every real
`Uint8ClampedArray` satisfies this). -/
def ByteBounded (m : Buf) : Prop :=
  ∀ i, i < 4 * m.width * m.height → m.data i ≤ 255

/-- 1×1 all-zero selection (fresh `new ImageData(1,1)` mask). -/
def zeroSel1 : Selection := ⟨Buf.zero 1 1, ⟨0, 0, 0, 0⟩, true⟩

/-- 1×1 full-strength mask (all four channels 255). -/
def fullSel1 : Selection := ⟨⟨1, 1, fun i => if i < 4 then 255 else 0⟩, ⟨0, 0, 1, 1⟩, true⟩

/-- 1×1 image whose single pixel is `(5, 5, 5, 255)`. -/
def imgGray1 : Buf := ⟨1, 1, fun i => if i < 3 then 5 else if i = 3 then 255 else 0⟩

/-- 3×1 uniform image, every pixel `(10, 10, 10, 255)`. -/
def imgRow3 : Buf := ⟨3, 1, fun i => if i < 12 then (if i % 4 = 3 then 255 else 10) else 0⟩

/-- 3×3 image: black pixels everywhere except pixel `(0, 1)` (linear
position 3), which is white; alpha 255 everywhere. -/
def imgCross3 : Buf :=
  ⟨3, 3, fun i => if i < 36 then (if i / 4 = 3 ∨ i % 4 = 3 then 255 else 0) else 0⟩

/-- Saliency grid on a 12×12 canvas whose 10×10 interior is salient (value
1) and whose border is not: the interior flood region has exactly 100
pixels. -/
def sal12 : ℕ → ℚ := fun p =>
  if 1 ≤ p % 12 ∧ p % 12 ≤ 10 ∧ 1 ≤ p / 12 ∧ p / 12 ≤ 10 then 1 else 0

/-- A worklist discipline that preserves membership: scheduling new entries
against the remaining ones yields exactly their union (both the FIFO and
LIFO disciplines do). -/
def SchedOK (sched : List ℕ → List ℕ → List ℕ) : Prop :=
  ∀ news rest q, q ∈ sched news rest ↔ q ∈ news ∨ q ∈ rest

/-- Invariant of the subject-selection flood fill tying a loop state to the
declarative reachable set. -/
structure FloodInv (sal : ℕ → ℚ) (w h : ℕ) (cut : ℚ) (vis0 : List ℕ) (seed : ℕ)
    (st : FloodState) : Prop where
  regionReach : ∀ p ∈ st.region, FloodReach sal w h cut vis0 seed p
  workSrc : ∀ q ∈ st.work, q = seed ∨ ∃ p ∈ st.region, q ∈ floodNbrs w h p
  vis0Sub : ∀ v ∈ vis0, v ∈ st.visited
  regionNbrs : ∀ p ∈ st.region, ∀ q ∈ floodNbrs w h p, q ∈ st.visited ∨ q ∈ st.work
  visMem : ∀ q ∈ st.visited, q ∈ vis0 ∨ q ∈ st.region ∨ sal q < cut
  seedIn : seed ∈ st.visited ∨ seed ∈ st.work

/-! Helper lemmas. -/

theorem mem_offsets {r d : ℤ} : d ∈ offsets r ↔ -r ≤ d ∧ d ≤ r := by
  unfold offsets
  constructor
  · intro hmem
    rcases List.mem_map.mp hmem with ⟨k, hk, hkd⟩
    have hk' := List.mem_range.mp hk
    simp only [Int.ofNat_eq_coe] at hkd
    omega
  · intro h
    apply List.mem_map.mpr
    refine ⟨(d + r).toNat, List.mem_range.mpr (by omega), ?_⟩
    show (Int.ofNat (d + r).toNat) - r = d
    simp only [Int.ofNat_eq_coe]
    omega

theorem init_le_foldl_max : ∀ (l : List ℕ) (a : ℕ), a ≤ l.foldl max a := by
  intro l
  induction l with
  | nil => intro a; exact le_refl a
  | cons b t ih =>
    intro a
    exact le_trans (le_max_left a b) (ih (max a b))

theorem le_foldl_max {l : List ℕ} {x : ℕ} (hx : x ∈ l) : ∀ a, x ≤ l.foldl max a := by
  induction l with
  | nil => cases hx
  | cons b t ih =>
    intro a
    rcases List.mem_cons.mp hx with rfl | hxt
    · exact le_trans (le_max_right a x) (init_le_foldl_max t (max a x))
    · exact ih hxt (max a b)

theorem le_foldl_min {l : List ℕ} {b : ℕ} (h : ∀ x ∈ l, b ≤ x) :
    ∀ a, b ≤ a → b ≤ l.foldl min a := by
  induction l with
  | nil => intro a ha; exact ha
  | cons c t ih =>
    intro a ha
    exact ih (fun x hx => h x (List.mem_cons_of_mem c hx)) (min a c)
      (le_min ha (h c (List.mem_cons_self c t)))

theorem grid_pos_lt {nx ny w h : ℕ} (hx : nx < w) (hy : ny < h) : ny * w + nx < w * h := by
  calc ny * w + nx < ny * w + w := by omega
    _ = (ny + 1) * w := by ring
    _ ≤ h * w := Nat.mul_le_mul_right w hy
    _ = w * h := Nat.mul_comm h w

theorem grid_mod {nx ny w : ℕ} (hx : nx < w) : (ny * w + nx) % w = nx := by
  rw [Nat.add_comm, Nat.add_mul_mod_self_right nx ny w]
  exact Nat.mod_eq_of_lt hx

theorem grid_div {nx ny w : ℕ} (hx : nx < w) : (ny * w + nx) / w = ny := by
  rw [Nat.add_comm, Nat.add_mul_div_right nx ny (by omega : 0 < w)]
  rw [Nat.div_eq_of_lt hx]
  omega

theorem mem_neighborVals {m : Buf} {radius : ℚ} {x y v : ℕ} :
    v ∈ neighborVals m radius x y ↔
    ∃ dy dx : ℤ, dy ∈ offsets ⌈radius⌉ ∧ dx ∈ offsets ⌈radius⌉ ∧
      ¬(((dx * dx + dy * dy : ℤ) : ℚ) > radius * radius) ∧
      ¬((x : ℤ) + dx < 0 ∨ (m.width : ℤ) ≤ (x : ℤ) + dx ∨
        (y : ℤ) + dy < 0 ∨ (m.height : ℤ) ≤ (y : ℤ) + dy) ∧
      v = m.data (4 * ((((y : ℤ) + dy).toNat) * m.width + ((x : ℤ) + dx).toNat)) := by
  unfold neighborVals
  rw [List.mem_flatMap]
  constructor
  · rintro ⟨dy, hdy, hv⟩
    rcases List.mem_filterMap.mp hv with ⟨dx, hdx, hfdx⟩
    refine ⟨dy, dx, hdy, hdx, ?_⟩
    dsimp only at hfdx
    by_cases hA : ((dx * dx + dy * dy : ℤ) : ℚ) > radius * radius
    · rw [if_pos hA] at hfdx; cases hfdx
    · rw [if_neg hA] at hfdx
      by_cases hB : (x : ℤ) + dx < 0 ∨ (m.width : ℤ) ≤ (x : ℤ) + dx ∨
          (y : ℤ) + dy < 0 ∨ (m.height : ℤ) ≤ (y : ℤ) + dy
      · rw [if_pos hB] at hfdx; cases hfdx
      · rw [if_neg hB] at hfdx
        exact ⟨hA, hB, (Option.some_injective _ hfdx).symm⟩
  · rintro ⟨dy, dx, hdy, hdx, hA, hB, hval⟩
    refine ⟨dy, hdy, List.mem_filterMap.mpr ⟨dx, hdx, ?_⟩⟩
    dsimp only
    rw [if_neg hA, if_neg hB, hval]

theorem dilate_strength (m : Buf) (radius : ℚ) {p : ℕ} (hp : p < m.width * m.height) :
    (dilate m radius).data (4 * p) =
      (neighborVals m radius (p % m.width) (p / m.width)).foldl max 0 := by
  unfold dilate
  have h4 : 4 * p < 4 * m.width * m.height := by rw [Nat.mul_assoc]; omega
  have hm : (4 * p) % 4 = 0 := by omega
  have hd : 4 * p / 4 = p := by omega
  simp only [h4, if_pos, hm, hd]
  norm_num

theorem erode_strength (m : Buf) (radius : ℚ) {p : ℕ} (hp : p < m.width * m.height) :
    (erode m radius).data (4 * p) =
      (neighborVals m radius (p % m.width) (p / m.width)).foldl min 255 := by
  unfold erode
  have h4 : 4 * p < 4 * m.width * m.height := by rw [Nat.mul_assoc]; omega
  have hm : (4 * p) % 4 = 0 := by omega
  have hd : 4 * p / 4 = p := by omega
  simp only [h4, if_pos, hm, hd]
  norm_num

/-- The value of a pixel belongs to its own morphology neighbourhood when
the radius is nonnegative. -/
theorem self_mem_neighborVals (m : Buf) {radius : ℚ} (h0 : 0 ≤ radius)
    {p : ℕ} (hp : p < m.width * m.height) :
    m.data (4 * p) ∈ neighborVals m radius (p % m.width) (p / m.width) := by
  have hw : 0 < m.width := by
    rcases Nat.eq_zero_or_pos m.width with h | h
    · rw [h] at hp; omega
    · exact h
  have hx : p % m.width < m.width := Nat.mod_lt p hw
  have hy : p / m.width < m.height := Nat.div_lt_of_lt_mul hp
  have hc : (0 : ℤ) ≤ ⌈radius⌉ := Int.ceil_nonneg h0
  have hxz : ((p % m.width : ℕ) : ℤ) < (m.width : ℤ) := by exact_mod_cast hx
  have hyz : ((p / m.width : ℕ) : ℤ) < (m.height : ℤ) := by exact_mod_cast hy
  have hxz0 : (0 : ℤ) ≤ ((p % m.width : ℕ) : ℤ) := Int.natCast_nonneg _
  have hyz0 : (0 : ℤ) ≤ ((p / m.width : ℕ) : ℤ) := Int.natCast_nonneg _
  apply mem_neighborVals.mpr
  refine ⟨0, 0, ?_, ?_, ?_, ?_, ?_⟩
  · exact mem_offsets.mpr ⟨by omega, by omega⟩
  · exact mem_offsets.mpr ⟨by omega, by omega⟩
  · push_neg
    simpa using mul_self_nonneg radius
  · intro hB
    rcases hB with hcase | hcase | hcase | hcase <;> omega
  · congr 1
    have h1 : (((p / m.width : ℕ) : ℤ) + 0).toNat = p / m.width := by omega
    have h2 : (((p % m.width : ℕ) : ℤ) + 0).toNat = p % m.width := by omega
    rw [h1, h2]
    have h3 := Nat.div_add_mod p m.width
    have h5 : p / m.width * m.width = m.width * (p / m.width) := Nat.mul_comm _ _
    omega

theorem dilate_width (m : Buf) (radius : ℚ) : (dilate m radius).width = m.width := rfl

theorem dilate_height (m : Buf) (radius : ℚ) : (dilate m radius).height = m.height := rfl

theorem erode_width (m : Buf) (radius : ℚ) : (erode m radius).width = m.width := rfl

theorem erode_height (m : Buf) (radius : ℚ) : (erode m radius).height = m.height := rfl

theorem mirror_mem_neighborVals {m : Buf} {radius : ℚ} {px py : ℕ} {dx dy : ℤ}
    (hdx : dx ∈ offsets ⌈radius⌉) (hdy : dy ∈ offsets ⌈radius⌉)
    (hA : ¬(((dx * dx + dy * dy : ℤ) : ℚ) > radius * radius))
    (hx0 : 0 ≤ (px : ℤ) + dx) (hxw : (px : ℤ) + dx < (m.width : ℤ))
    (hy0 : 0 ≤ (py : ℤ) + dy) (hyh : (py : ℤ) + dy < (m.height : ℤ))
    (hpx : px < m.width) (hpy : py < m.height) :
    m.data (4 * (py * m.width + px)) ∈
      neighborVals m radius (((px : ℤ) + dx).toNat) (((py : ℤ) + dy).toNat) := by
  have hdx' := mem_offsets.mp hdx
  have hdy' := mem_offsets.mp hdy
  apply mem_neighborVals.mpr
  refine ⟨-dy, -dx, mem_offsets.mpr ⟨by omega, by omega⟩, mem_offsets.mpr ⟨by omega, by omega⟩,
    ?_, ?_, ?_⟩
  · rw [show (-dx * -dx + -dy * -dy : ℤ) = dx * dx + dy * dy from by ring]
    exact hA
  · intro hB
    rcases hB with hcase | hcase | hcase | hcase <;> omega
  · have e1 : (((((py : ℤ) + dy).toNat : ℕ) : ℤ) + -dy).toNat = py := by omega
    have e2 : (((((px : ℤ) + dx).toNat : ℕ) : ℤ) + -dx).toNat = px := by omega
    rw [e1, e2]

/-- Claim C6: for every mask and radius `r ≥ 0`, the morphological closing
`erode(dilate(m, r), r)` is pixelwise at least `m` on the strength channel,
including at borders where out-of-bounds neighbours are skipped. -/
theorem c6_closing_extensive (m : Buf) (radius : ℚ) (h0 : 0 ≤ radius)
    (hb : ByteBounded m) :
    ∀ p, p < m.width * m.height →
      m.data (4 * p) ≤ (erode (dilate m radius) radius).data (4 * p) := by
  intro p hp
  have hw : 0 < m.width := by
    rcases Nat.eq_zero_or_pos m.width with h | h
    · rw [h] at hp; omega
    · exact h
  have hpx : p % m.width < m.width := Nat.mod_lt p hw
  have hpy : p / m.width < m.height := Nat.div_lt_of_lt_mul hp
  have hpmd : p / m.width * m.width + p % m.width = p := by
    have h3 := Nat.div_add_mod p m.width
    have h5 : p / m.width * m.width = m.width * (p / m.width) := Nat.mul_comm _ _
    omega
  have hrw : (erode (dilate m radius) radius).data (4 * p) =
      (neighborVals (dilate m radius) radius (p % m.width) (p / m.width)).foldl min 255 :=
    erode_strength (dilate m radius) radius hp
  rw [hrw]
  apply le_foldl_min
  · intro v hv
    rcases mem_neighborVals.mp hv with ⟨dy, dx, hdy, hdx, hA, hB, hval⟩
    push_neg at hB
    obtain ⟨hx0, hxw, hy0, hyh⟩ := hB
    rw [dilate_width] at hxw
    rw [dilate_height] at hyh
    have hx0' : 0 ≤ ((p % m.width : ℕ) : ℤ) + dx := by omega
    have hy0' : 0 ≤ ((p / m.width : ℕ) : ℤ) + dy := by omega
    set nx : ℕ := (((p % m.width : ℕ) : ℤ) + dx).toNat with hnxdef
    set ny : ℕ := (((p / m.width : ℕ) : ℤ) + dy).toNat with hnydef
    have hnxw : nx < m.width := by omega
    have hnyh : ny < m.height := by omega
    have hq : ny * m.width + nx < m.width * m.height := grid_pos_lt hnxw hnyh
    have hvq : v = (dilate m radius).data (4 * (ny * m.width + nx)) := hval
    rw [hvq, dilate_strength m radius hq, grid_mod hnxw, grid_div hnxw]
    exact le_foldl_max
      (by
        have hmem := mirror_mem_neighborVals hdx hdy hA hx0' (by omega) hy0' (by omega) hpx hpy
        rw [hpmd] at hmem
        exact hmem) 0
  · exact hb (4 * p) (by rw [Nat.mul_assoc]; omega)

/-- Witness for C6: a concrete evaluation of the closing inequality. -/
theorem c6_closing_extensive_witness :
    (0 : ℚ) ≤ 1 ∧ ByteBounded fullSel1.mask ∧ 0 < fullSel1.mask.width * fullSel1.mask.height ∧
    fullSel1.mask.data (4 * 0) ≤ (erode (dilate fullSel1.mask 1) 1).data (4 * 0) := by
  refine ⟨by norm_num, ?_, by decide, ?_⟩
  · intro i hi
    simp only [fullSel1]
    split <;> omega
  · exact c6_closing_extensive fullSel1.mask 1 (by norm_num)
      (by intro i hi; simp only [fullSel1]; split <;> omega) 0 (by decide)

theorem ratSqrt_nonneg (q : ℚ) : 0 ≤ ratSqrt q := Nat.cast_nonneg _

theorem jsZeroDivPipeline (a : ℚ) (ha : 0 ≤ a) :
    jsToClampedByte (jsRoundNum (jsTimes255 (jsMaxZero (jsOneMinus (jsDivFin a 0))))) = 0 := by
  unfold jsDivFin
  rw [if_pos rfl]
  by_cases h : a = 0
  · rw [if_pos h]
    rfl
  · rw [if_neg h, if_pos (lt_of_le_of_ne ha (Ne.symm h))]
    show jsToClampedByte (jsRoundNum (jsTimes255 (jsMaxZero (jsOneMinus JSNum.posinf)))) = 0
    norm_num [jsOneMinus, jsMaxZero, jsTimes255, jsRoundNum, jsToClampedByte, jsRound, toByte]

/-- Claim C1 (code evaluation at the failing input): with `fuzziness = 0`
the source divides by `maxDist = 0`; an exact match gives `0/0 = NaN`,
`Math.max(0, NaN) = NaN`, and the clamped store writes 0 — and every other
pixel gives `-∞ ↦ 0` — so the whole mask is 0, never 255. -/
theorem c1_zero_fuzziness_all_zero (img : Buf) (tr tg tb : ℕ) :
    ∀ i, i < 4 * img.width * img.height →
      (selectColorRange img tr tg tb 0).mask.data i = 0 := by
  intro i hi
  unfold selectColorRange
  dsimp only
  rw [if_pos hi]
  unfold colorRangeValue
  dsimp only
  rw [show (0 : ℚ) * (51 / 20) = 0 from by norm_num]
  exact jsZeroDivPipeline _ (ratSqrt_nonneg _)

/-- Witness for C1's theorem: the 1×1 image whose pixel equals the target
colour still receives strength 0. -/
theorem c1_zero_fuzziness_all_zero_witness :
    0 < 4 * imgGray1.width * imgGray1.height ∧
    (selectColorRange imgGray1 5 5 5 0).mask.data 0 = 0 :=
  ⟨by decide, c1_zero_fuzziness_all_zero imgGray1 5 5 5 0 (by decide)⟩

/-- Claim C4 (code evaluation at the failing input): `growSelection` with a
radius of `-1` (or anything with `⌈radius⌉ ≤ -1`) does not clamp — the
dilate neighbourhood loop body never runs, `maxVal` stays 0, and every
strength channel of the returned mask is 0: the selection is destroyed. -/
theorem c4_grow_negative_radius_zeroes (s : Selection) (pixels : ℚ) (hneg : pixels ≤ -1) :
    ∀ i, i < 4 * s.mask.width * s.mask.height → i % 4 ≠ 3 →
      (growSelection s pixels).mask.data i = 0 := by
  intro i hi h3
  have hceil : ⌈pixels⌉ ≤ -1 := by
    apply Int.ceil_le.mpr
    exact_mod_cast hneg
  have hoffs : offsets ⌈pixels⌉ = [] := by
    unfold offsets
    rw [show (2 * ⌈pixels⌉ + 1).toNat = 0 from by omega]
    rfl
  show (dilate s.mask pixels).data i = 0
  unfold dilate
  dsimp only
  rw [if_pos hi, if_neg h3]
  simp only [neighborVals, hoffs]
  rfl

/-- Witness for C4's theorem: growing the full-strength 1×1 selection by
`-1` yields strength 0. -/
theorem c4_grow_negative_radius_zeroes_witness :
    (-1 : ℚ) ≤ -1 ∧ 0 < 4 * fullSel1.mask.width * fullSel1.mask.height ∧
    (growSelection fullSel1 (-1)).mask.data 0 = 0 :=
  ⟨le_refl _, by decide, c4_grow_negative_radius_zeroes fullSel1 (-1) (le_refl _) 0
    (by decide) (by decide)⟩

/-- Counterexample for C5: the all-zero 1×1 mask has alpha 0, but
`invert(invert(m))` forces alpha to 255, so the round trip does not restore
all four channels. -/
theorem c5_invert_counterexample :
    (invertSelection (invertSelection zeroSel1)).mask.data 3 = 255 ∧
    zeroSel1.mask.data 3 = 0 := by
  constructor <;> rfl

/-- Claim C5 (amended): the double inversion restores the R, G and B
channels exactly (for byte-valued masks); the alpha channel is forced to
255 by each pass, and each invert resets bounds to the full canvas. -/
theorem c5_invert_involution_rgb (sel : Selection) (hb : ByteBounded sel.mask) :
    (∀ i, i < 4 * sel.mask.width * sel.mask.height →
      (i % 4 ≠ 3 → (invertSelection (invertSelection sel)).mask.data i = sel.mask.data i) ∧
      (i % 4 = 3 → (invertSelection (invertSelection sel)).mask.data i = 255)) ∧
    (invertSelection (invertSelection sel)).bounds =
      ⟨0, 0, sel.mask.width, sel.mask.height⟩ ∧
    (invertSelection sel).bounds = ⟨0, 0, sel.mask.width, sel.mask.height⟩ := by
  refine ⟨?_, rfl, rfl⟩
  intro i hi
  constructor
  · intro h3
    show (if i < 4 * sel.mask.width * sel.mask.height then
        if i % 4 = 3 then 255 else 255 -
          (if i < 4 * sel.mask.width * sel.mask.height then
            if i % 4 = 3 then 255 else 255 - sel.mask.data i
          else sel.mask.data i)
      else _) = sel.mask.data i
    rw [if_pos hi, if_neg h3, if_pos hi, if_neg h3]
    have := hb i hi
    omega
  · intro h3
    show (if i < 4 * sel.mask.width * sel.mask.height then
        if i % 4 = 3 then 255 else _ else _) = 255
    rw [if_pos hi, if_pos h3]

/-- Witness for C5's amended theorem at the full-strength 1×1 mask. -/
theorem c5_invert_involution_rgb_witness :
    ByteBounded fullSel1.mask ∧
    (invertSelection (invertSelection fullSel1)).mask.data 0 = fullSel1.mask.data 0 ∧
    (invertSelection (invertSelection fullSel1)).mask.data 3 = 255 := by
  have hb : ByteBounded fullSel1.mask := by
    intro i hi
    simp only [fullSel1]
    split <;> omega
  exact ⟨hb,
    ((c5_invert_involution_rgb fullSel1 hb).1 0 (by decide)).1 (by decide),
    ((c5_invert_involution_rgb fullSel1 hb).1 3 (by decide)).2 (by decide)⟩

/-- Claim C9: `applySelectionAsAlpha` leaves R, G, B unchanged at every
pixel and sets alpha to the minimum of the old alpha and the mask strength;
the selection itself is untouched (the model is functional: the selection
argument is read-only). -/
theorem c9_apply_alpha_frame (img : Buf) (sel : Selection) (p : ℕ)
    (hp : p < img.width * img.height) :
    (applySelectionAsAlpha img sel).data (4 * p) = img.data (4 * p) ∧
    (applySelectionAsAlpha img sel).data (4 * p + 1) = img.data (4 * p + 1) ∧
    (applySelectionAsAlpha img sel).data (4 * p + 2) = img.data (4 * p + 2) ∧
    (applySelectionAsAlpha img sel).data (4 * p + 3) =
      min (img.data (4 * p + 3)) (sel.mask.data (4 * p)) := by
  unfold applySelectionAsAlpha
  dsimp only
  refine ⟨?_, ?_, ?_, ?_⟩
  · rw [if_neg (by omega)]
  · rw [if_neg (by omega)]
  · rw [if_neg (by omega)]
  · rw [if_pos ⟨by rw [Nat.mul_assoc]; omega, by omega⟩,
      show 4 * p + 3 - 3 = 4 * p from by omega]

/-- Witness for C9 at a concrete image and selection. -/
theorem c9_apply_alpha_frame_witness :
    0 < imgGray1.width * imgGray1.height ∧
    (applySelectionAsAlpha imgGray1 zeroSel1).data 3 =
      min (imgGray1.data 3) (zeroSel1.mask.data 0) :=
  ⟨by decide, by
    have h := (c9_apply_alpha_frame imgGray1 zeroSel1 0 (by decide)).2.2.2
    simpa using h⟩

theorem qsRunWith_inv (sched : List (ℚ × ℚ × ℕ) → List (ℚ × ℚ × ℕ) → List (ℚ × ℚ × ℕ))
    (P : QSParams) (I : QSState → Prop)
    (hstep : ∀ st, I st → I (qsStepWith sched P st)) :
    ∀ fuel st, I st → I (qsRunWith sched P fuel st) := by
  intro fuel
  induction fuel with
  | zero => intro st h; exact h
  | succ n ih =>
    intro st h
    unfold qsRunWith
    split
    · exact h
    · exact ih _ (hstep st h)

theorem qsStepWith_mask_ge (sched : List (ℚ × ℚ × ℕ) → List (ℚ × ℚ × ℕ) → List (ℚ × ℚ × ℕ))
    (P : QSParams) (hmode : P.mode = SelectionMode.new ∨ P.mode = SelectionMode.add)
    (base : ℕ → ℕ) (hbase : ∀ i, base i ≤ 255) (st : QSState)
    (h : ∀ i, base i ≤ st.mask i) :
    ∀ i, base i ≤ (qsStepWith sched P st).mask i := by
  intro i
  rcases hq : st.queue with _ | ⟨⟨x, y, depth⟩, rest⟩
  · unfold qsStepWith
    rw [hq]
    exact h i
  · unfold qsStepWith
    rw [hq]
    dsimp only
    split_ifs with h1 h2 h3 h4 h5 h6
    all_goals try exact h i
    all_goals {
      show base i ≤ qsWrite P.mode _ st.mask i
      rcases hmode with hm | hm <;> rw [hm] <;> unfold qsWrite <;> dsimp only <;> split
      · exact hbase i
      · exact h i
      · exact hbase i
      · exact h i
    }

/-- Claim C10: `quickSelect` in mode `new` or `add` starts from a copy of
the existing mask and only ever writes 255, so no pixel's value decreases. -/
theorem c10_quickselect_never_deselects (img : Buf) (sx sy radius : ℚ)
    (mode : SelectionMode) (hmode : mode = SelectionMode.new ∨ mode = SelectionMode.add)
    (ex : Buf) (hbase : ∀ i, i < 4 * img.width * img.height → ex.data i ≤ 255) :
    ∀ i, i < 4 * img.width * img.height →
      ex.data i ≤ (quickSelect img sx sy radius mode (some ex)).mask.data i := by
  have hmode' : (qsParams img sx sy radius mode).mode = SelectionMode.new ∨
      (qsParams img sx sy radius mode).mode = SelectionMode.add := hmode
  have hb2 : ∀ i, (qsInit img sx sy (some ex)).mask i ≤ 255 := by
    intro i
    show (if i < 4 * img.width * img.height then ex.data i else 0) ≤ 255
    split
    · exact hbase i (by assumption)
    · omega
  have hrun := qsRunWith_inv fifoSched (qsParams img sx sy radius mode)
    (fun st => ∀ i, (qsInit img sx sy (some ex)).mask i ≤ st.mask i)
    (fun st h => qsStepWith_mask_ge fifoSched _ hmode' _ hb2 st h)
    (1 + 5 * img.width * img.height) (qsInit img sx sy (some ex))
    (fun i => le_refl _)
  intro i hi
  have h2 := hrun i
  show ex.data i ≤ (quickSelectRun img sx sy radius mode (some ex)).mask i
  have h3 : (qsInit img sx sy (some ex)).mask i = ex.data i := by
    show (if i < 4 * img.width * img.height then ex.data i else 0) = ex.data i
    rw [if_pos hi]
  rw [h3] at h2
  exact h2

/-- Witness for C10 on a concrete image and existing selection. -/
theorem c10_quickselect_never_deselects_witness :
    0 < 4 * imgRow3.width * imgRow3.height ∧
    fullSel1.mask.data 0 ≤
      (quickSelect imgRow3 1 0 1 SelectionMode.add (some fullSel1.mask)).mask.data 0 :=
  ⟨by decide, c10_quickselect_never_deselects imgRow3 1 0 1 SelectionMode.add
    (Or.inr rfl) fullSel1.mask
    (by intro i hi; simp only [fullSel1]; split <;> omega) 0 (by decide)⟩

theorem qsStepWith_log_accept (sched : List (ℚ × ℚ × ℕ) → List (ℚ × ℚ × ℕ) → List (ℚ × ℚ × ℕ))
    (P : QSParams) (st : QSState)
    (h : ∀ p d x y, (p, d, x, y) ∈ st.log → d ≤ 1 →
      qsDistReject P x y = false → p ∈ st.accepted) :
    ∀ p d x y, (p, d, x, y) ∈ (qsStepWith sched P st).log → d ≤ 1 →
      qsDistReject P x y = false → p ∈ (qsStepWith sched P st).accepted := by
  intro p d x y hmem hd hdist
  rcases hq : st.queue with _ | ⟨⟨x0, y0, depth⟩, rest⟩
  · unfold qsStepWith at hmem ⊢
    rw [hq] at hmem ⊢
    exact h p d x y hmem hd hdist
  · unfold qsStepWith at hmem ⊢
    rw [hq] at hmem ⊢
    dsimp only at hmem ⊢
    split_ifs at hmem ⊢ with h1 h2 h3 h4 h5 h6
    all_goals try exact h p d x y hmem hd hdist
    -- remaining branches: the popped cell was freshly visited
    · -- distance-cap rejection: the new log entry has the rejecting coordinates
      rcases List.mem_cons.mp hmem with he | hold
      · exfalso
        simp only [Prod.mk.injEq] at he
        obtain ⟨rfl, rfl, rfl, rfl⟩ := he
        rw [h3] at hdist
        cases hdist
      · exact h p d x y hold hd hdist
    · -- edge rejection: only fires at depth > 1
      rcases List.mem_cons.mp hmem with he | hold
      · exfalso
        simp only [Prod.mk.injEq] at he
        obtain ⟨rfl, rfl, rfl, rfl⟩ := he
        omega
      · exact h p d x y hold hd hdist
    · -- colour rejection: only fires at depth > 1
      rcases List.mem_cons.mp hmem with he | hold
      · exfalso
        simp only [Prod.mk.injEq] at he
        obtain ⟨rfl, rfl, rfl, rfl⟩ := he
        omega
      · exact h p d x y hold hd hdist
    all_goals {
      rcases List.mem_cons.mp hmem with he | hold
      · simp only [Prod.mk.injEq] at he
        obtain ⟨rfl, rfl, rfl, rfl⟩ := he
        exact List.mem_cons_self _ _
      · exact List.mem_cons_of_mem _ (h p d x y hold hd hdist)
    }

theorem qsStepWith_accept_mask (sched : List (ℚ × ℚ × ℕ) → List (ℚ × ℚ × ℕ) → List (ℚ × ℚ × ℕ))
    (P : QSParams) (hmode : P.mode = SelectionMode.new ∨ P.mode = SelectionMode.add)
    (st : QSState)
    (h : ∀ p, p ∈ st.accepted → ∀ i, i / 4 = p → st.mask i = 255) :
    ∀ p, p ∈ (qsStepWith sched P st).accepted → ∀ i, i / 4 = p →
      (qsStepWith sched P st).mask i = 255 := by
  intro p hp i hip
  rcases hq : st.queue with _ | ⟨⟨x0, y0, depth⟩, rest⟩
  · unfold qsStepWith at hp ⊢
    rw [hq] at hp ⊢
    exact h p hp i hip
  · unfold qsStepWith at hp ⊢
    rw [hq] at hp ⊢
    dsimp only at hp ⊢
    split_ifs at hp ⊢ with h1 h2 h3 h4 h5 h6
    all_goals try exact h p hp i hip
    all_goals {
      show qsWrite P.mode _ st.mask i = 255
      rcases List.mem_cons.mp hp with he | hold
      · subst he
        rcases hmode with hm | hm <;> rw [hm] <;> unfold qsWrite <;> dsimp only <;>
          rw [if_pos hip]
      · have h255 := h p hold i hip
        rcases hmode with hm | hm <;> rw [hm] <;> unfold qsWrite <;> dsimp only <;>
          split <;> first | rfl | exact h255
    }

unseal Rat.add Rat.mul Rat.inv Rat.sub in
/-- Counterexample for C2: on the uniform 3×1 image with seed `(1,0)` and
`radius = 0.1` (`maxRadius = 0.3`), the cell `(2,0)` is visited at BFS depth
1 — the log records it — yet the distance cap `1 > 0.3` rejects it, so in
mode `new` its mask value stays 0 instead of 255. -/
theorem c2_counterexample :
    ((2 : ℕ), (1 : ℕ), (2 : ℚ), (0 : ℚ)) ∈
      (quickSelectRun imgRow3 1 0 (1 / 10) SelectionMode.new none).log ∧
    (quickSelectRun imgRow3 1 0 (1 / 10) SelectionMode.new none).mask (4 * 2) = 0 :=
  ⟨by decide, by decide⟩

/-- Claim C2 (amended): the edge-map and colour-distance tests apply only at
depth > 1, but the Euclidean distance cap applies at every depth: a visited
cell of depth ≤ 1 is accepted (and written per mode) exactly when it also
passes the distance cap. -/
theorem c2_depth_le_one_accepted (img : Buf) (sx sy radius : ℚ) (mode : SelectionMode)
    (existing : Option Buf) :
    ∀ p d x y,
      (p, d, x, y) ∈ (quickSelectRun img sx sy radius mode existing).log →
      d ≤ 1 →
      qsDistReject (qsParams img sx sy radius mode) x y = false →
      p ∈ (quickSelectRun img sx sy radius mode existing).accepted ∧
      ((mode = SelectionMode.new ∨ mode = SelectionMode.add) →
        ∀ i, i / 4 = p →
          (quickSelectRun img sx sy radius mode existing).mask i = 255) := by
  intro p d x y hmem hd hdist
  have hlog := qsRunWith_inv fifoSched (qsParams img sx sy radius mode)
    (fun st => ∀ p d x y, (p, d, x, y) ∈ st.log → d ≤ 1 →
      qsDistReject (qsParams img sx sy radius mode) x y = false → p ∈ st.accepted)
    (fun st h => qsStepWith_log_accept fifoSched _ st h)
    (1 + 5 * img.width * img.height) (qsInit img sx sy existing)
    (fun p d x y hmem _ _ => absurd hmem (List.not_mem_nil _))
  have hacc : p ∈ (quickSelectRun img sx sy radius mode existing).accepted :=
    hlog p d x y hmem hd hdist
  refine ⟨hacc, ?_⟩
  intro hmode i hip
  have hmask := qsRunWith_inv fifoSched (qsParams img sx sy radius mode)
    (fun st => ∀ p, p ∈ st.accepted → ∀ i, i / 4 = p → st.mask i = 255)
    (fun st h => qsStepWith_accept_mask fifoSched _ hmode st h)
    (1 + 5 * img.width * img.height) (qsInit img sx sy existing)
    (fun p hp => absurd hp (List.not_mem_nil _))
  exact hmask p hacc i hip

unseal Rat.add Rat.mul Rat.inv Rat.sub in
/-- Witness for C2's amended theorem: the seed of a concrete run is logged
at depth 0, passes the cap and ends accepted with mask value 255. -/
theorem c2_depth_le_one_accepted_witness :
    ((1 : ℕ), (0 : ℕ), (1 : ℚ), (0 : ℚ)) ∈
      (quickSelectRun imgRow3 1 0 (1 / 10) SelectionMode.new none).log ∧
    qsDistReject (qsParams imgRow3 1 0 (1 / 10) SelectionMode.new) 1 0 = false ∧
    1 ∈ (quickSelectRun imgRow3 1 0 (1 / 10) SelectionMode.new none).accepted ∧
    (quickSelectRun imgRow3 1 0 (1 / 10) SelectionMode.new none).mask 4 = 255 := by
  have h := c2_depth_le_one_accepted imgRow3 1 0 (1 / 10) SelectionMode.new none
    1 0 1 0 (by decide) (by decide) (by decide)
  exact ⟨by decide, by decide, h.1, h.2 (Or.inl rfl) 4 (by decide)⟩

theorem foldl_max_le {l : List ℕ} {b : ℕ} (h : ∀ x ∈ l, x ≤ b) :
    ∀ a, a ≤ b → l.foldl max a ≤ b := by
  induction l with
  | nil => intro a ha; exact ha
  | cons c t ih =>
    intro a ha
    exact ih (fun x hx => h x (List.mem_cons_of_mem c hx))
      (max a c) (max_le ha (h c (List.mem_cons_self c t)))

theorem foldl_min_le_init : ∀ (l : List ℕ) (a : ℕ), l.foldl min a ≤ a := by
  intro l
  induction l with
  | nil => intro a; exact le_refl a
  | cons c t ih =>
    intro a
    exact le_trans (ih (min a c)) (min_le_left a c)

theorem foldl_min_le_mem {l : List ℕ} {x : ℕ} (hx : x ∈ l) : ∀ a, l.foldl min a ≤ x := by
  induction l with
  | nil => cases hx
  | cons b t ih =>
    intro a
    rcases List.mem_cons.mp hx with rfl | hxt
    · exact le_trans (foldl_min_le_init t (min a x)) (min_le_right a x)
    · exact ih hxt (min a b)

theorem strength_lt {p w h : ℕ} (hp : p < w * h) : 4 * p < 4 * w * h := by
  rw [Nat.mul_assoc]; omega

/-- Every strength sample of the zero mask's dilation is zero. -/
theorem dilate_zero_strength (w h : ℕ) (radius : ℚ) {p : ℕ} (hp : p < w * h) :
    (dilate (Buf.zero w h) radius).data (4 * p) = 0 := by
  rw [dilate_strength (Buf.zero w h) radius hp]
  apply Nat.le_antisymm
  · apply foldl_max_le (b := 0) _ 0 (le_refl 0)
    intro x hx
    rcases mem_neighborVals.mp hx with ⟨dy, dx, _, _, _, _, hval⟩
    exact le_of_eq hval
  · exact Nat.zero_le _

/-- The closing of the zero mask has zero strength everywhere. -/
theorem morphClose_zero_strength (w h : ℕ) {p : ℕ} (hp : p < w * h) :
    (morphClose (Buf.zero w h) 3).data (4 * p) = 0 := by
  unfold morphClose
  rw [erode_strength (dilate (Buf.zero w h) 3) 3 hp]
  apply Nat.le_antisymm
  · have hself := self_mem_neighborVals (dilate (Buf.zero w h) 3)
      (by norm_num : (0 : ℚ) ≤ 3) hp
    have h0 : (dilate (Buf.zero w h) 3).data (4 * p) = 0 := dilate_zero_strength w h 3 hp
    rw [h0] at hself
    exact foldl_min_le_mem hself 255
  · exact Nat.zero_le _

set_option maxRecDepth 40000 in
unseal Rat.add Rat.mul Rat.inv Rat.sub in
/-- Counterexample for C8: a 12×12 saliency grid whose salient interior is
exactly the 10×10 block of 100 pixels.  The scan floods exactly one region,
of exactly 100 pixels, and retains nothing — the strict `> 100` comparison
discards a region of exactly 100 pixels, which the claim says must be kept. -/
theorem c8_counterexample :
    ((scanRegions sal12 12 12).1.map (fun rs => rs.1.length)) = [100] ∧
    retainedRegions sal12 12 12 = [] :=
  ⟨by decide, by decide⟩

/-- Claim C8 (amended): a flooded region is retained exactly when it has
strictly more than 100 pixels (so a region of exactly 100 pixels is
discarded), and if no region qualifies the subject mask is left at zero
strength everywhere. -/
theorem c8_region_retention (sal : ℕ → ℚ) (w h : ℕ) :
    (∀ rs, rs ∈ retainedRegions sal w h ↔
      rs ∈ (scanRegions sal w h).1 ∧ 100 < rs.1.length) ∧
    (retainedRegions sal w h = [] →
      ∀ p, p < w * h → (selectSubjectFromSaliency sal w h).data (4 * p) = 0) := by
  constructor
  · intro rs
    unfold retainedRegions
    rw [List.mem_filter]
    constructor
    · rintro ⟨h1, h2⟩
      exact ⟨h1, by exact_mod_cast of_decide_eq_true h2⟩
    · rintro ⟨h1, h2⟩
      exact ⟨h1, decide_eq_true h2⟩
  · intro hempty p hp
    unfold selectSubjectFromSaliency
    rw [hempty]
    exact morphClose_zero_strength w h hp

unseal Rat.add Rat.mul Rat.inv Rat.sub in
/-- Witness for C8's amended theorem: with an all-zero saliency map on a
1×1 canvas nothing is retained and the subject mask is zero. -/
theorem c8_region_retention_witness :
    retainedRegions (fun _ => 0) 1 1 = [] ∧
    (selectSubjectFromSaliency (fun _ => 0) 1 1).data (4 * 0) = 0 :=
  ⟨by decide, (c8_region_retention (fun _ => 0) 1 1).2 (by decide) 0 (by decide)⟩

theorem div4_0 (p : ℕ) : (4 * p) / 4 = p := by omega

theorem div4_1 (p : ℕ) : (4 * p + 1) / 4 = p := by omega

theorem div4_2 (p : ℕ) : (4 * p + 2) / 4 = p := by omega

theorem dilate_rgb (m : Buf) (radius : ℚ) : MaskRGB (dilate m radius) := by
  intro p hp
  have hpw : p < m.width * m.height := hp
  constructor
  · show (dilate m radius).data (4 * p) = (dilate m radius).data (4 * p + 1)
    unfold dilate
    dsimp only
    rw [if_pos (by rw [Nat.mul_assoc]; omega), if_neg (by omega),
        if_pos (by rw [Nat.mul_assoc]; omega), if_neg (by omega), div4_0, div4_1]
  · show (dilate m radius).data (4 * p + 1) = (dilate m radius).data (4 * p + 2)
    unfold dilate
    dsimp only
    rw [if_pos (by rw [Nat.mul_assoc]; omega), if_neg (by omega),
        if_pos (by rw [Nat.mul_assoc]; omega), if_neg (by omega), div4_1, div4_2]

theorem erode_rgb (m : Buf) (radius : ℚ) : MaskRGB (erode m radius) := by
  intro p hp
  have hpw : p < m.width * m.height := hp
  constructor
  · show (erode m radius).data (4 * p) = (erode m radius).data (4 * p + 1)
    unfold erode
    dsimp only
    rw [if_pos (by rw [Nat.mul_assoc]; omega), if_neg (by omega),
        if_pos (by rw [Nat.mul_assoc]; omega), if_neg (by omega), div4_0, div4_1]
  · show (erode m radius).data (4 * p + 1) = (erode m radius).data (4 * p + 2)
    unfold erode
    dsimp only
    rw [if_pos (by rw [Nat.mul_assoc]; omega), if_neg (by omega),
        if_pos (by rw [Nat.mul_assoc]; omega), if_neg (by omega), div4_1, div4_2]

theorem gaussianBlur_width (m : Buf) (radius : ℚ) : (gaussianBlur m radius).width = m.width := by
  unfold gaussianBlur
  split <;> rfl

theorem gaussianBlur_height (m : Buf) (radius : ℚ) : (gaussianBlur m radius).height = m.height := by
  unfold gaussianBlur
  split <;> rfl

theorem gaussianBlur_rgb (m : Buf) (radius : ℚ) (hm : MaskRGB m) :
    MaskRGB (gaussianBlur m radius) := by
  intro p hp
  rw [gaussianBlur_width, gaussianBlur_height] at hp
  constructor
  · show (gaussianBlur m radius).data (4 * p) = (gaussianBlur m radius).data (4 * p + 1)
    unfold gaussianBlur
    split
    · exact (hm p hp).1
    · dsimp only
      rw [if_pos (by rw [Nat.mul_assoc]; omega), if_neg (by omega),
          if_pos (by rw [Nat.mul_assoc]; omega), if_neg (by omega), div4_0, div4_1]
  · show (gaussianBlur m radius).data (4 * p + 1) = (gaussianBlur m radius).data (4 * p + 2)
    unfold gaussianBlur
    split
    · exact (hm p hp).2
    · dsimp only
      rw [if_pos (by rw [Nat.mul_assoc]; omega), if_neg (by omega),
          if_pos (by rw [Nat.mul_assoc]; omega), if_neg (by omega), div4_1, div4_2]

theorem medianFilter_rgb (m : Buf) (radius : ℚ) : MaskRGB (medianFilter m radius) := by
  intro p hp
  have hpw : p < m.width * m.height := hp
  constructor
  · show (medianFilter m radius).data (4 * p) = (medianFilter m radius).data (4 * p + 1)
    unfold medianFilter
    dsimp only
    rw [if_pos (by rw [Nat.mul_assoc]; omega), if_neg (by omega),
        if_pos (by rw [Nat.mul_assoc]; omega), if_neg (by omega), div4_0, div4_1]
  · show (medianFilter m radius).data (4 * p + 1) = (medianFilter m radius).data (4 * p + 2)
    unfold medianFilter
    dsimp only
    rw [if_pos (by rw [Nat.mul_assoc]; omega), if_neg (by omega),
        if_pos (by rw [Nat.mul_assoc]; omega), if_neg (by omega), div4_1, div4_2]

theorem combineSelections_rgb (a b : Selection) (mode : SelectionMode) :
    MaskRGB (combineSelections a b mode).mask := by
  intro p hp
  have hpw : p < a.mask.width * a.mask.height := hp
  constructor
  · show (combineSelections a b mode).mask.data (4 * p) =
      (combineSelections a b mode).mask.data (4 * p + 1)
    unfold combineSelections
    dsimp only
    rw [if_pos (by rw [Nat.mul_assoc]; omega), if_neg (by omega),
        if_pos (by rw [Nat.mul_assoc]; omega), if_neg (by omega), div4_0, div4_1]
  · show (combineSelections a b mode).mask.data (4 * p + 1) =
      (combineSelections a b mode).mask.data (4 * p + 2)
    unfold combineSelections
    dsimp only
    rw [if_pos (by rw [Nat.mul_assoc]; omega), if_neg (by omega),
        if_pos (by rw [Nat.mul_assoc]; omega), if_neg (by omega), div4_1, div4_2]

theorem selectionFromAlpha_rgb (img : Buf) : MaskRGB (selectionFromAlpha img).mask := by
  intro p hp
  have hpw : p < img.width * img.height := hp
  constructor
  · show (selectionFromAlpha img).mask.data (4 * p) =
      (selectionFromAlpha img).mask.data (4 * p + 1)
    unfold selectionFromAlpha
    dsimp only
    rw [if_pos (by rw [Nat.mul_assoc]; omega), if_neg (by omega),
        if_pos (by rw [Nat.mul_assoc]; omega), if_neg (by omega), div4_0, div4_1]
  · show (selectionFromAlpha img).mask.data (4 * p + 1) =
      (selectionFromAlpha img).mask.data (4 * p + 2)
    unfold selectionFromAlpha
    dsimp only
    rw [if_pos (by rw [Nat.mul_assoc]; omega), if_neg (by omega),
        if_pos (by rw [Nat.mul_assoc]; omega), if_neg (by omega), div4_1, div4_2]

theorem invertSelection_rgb (s : Selection) (hm : MaskRGB s.mask) :
    MaskRGB (invertSelection s).mask := by
  intro p hp
  have hpw : p < s.mask.width * s.mask.height := hp
  obtain ⟨h01, h12⟩ := hm p hpw
  constructor
  · show (invertSelection s).mask.data (4 * p) = (invertSelection s).mask.data (4 * p + 1)
    unfold invertSelection
    dsimp only
    rw [if_pos (by rw [Nat.mul_assoc]; omega), if_neg (by omega),
        if_pos (by rw [Nat.mul_assoc]; omega), if_neg (by omega), h01]
  · show (invertSelection s).mask.data (4 * p + 1) = (invertSelection s).mask.data (4 * p + 2)
    unfold invertSelection
    dsimp only
    rw [if_pos (by rw [Nat.mul_assoc]; omega), if_neg (by omega),
        if_pos (by rw [Nat.mul_assoc]; omega), if_neg (by omega), h12]

theorem selectColorRange_rgba (img : Buf) (tr tg tb : ℕ) (fuzziness : ℚ) :
    ∀ p, p < img.width * img.height →
      (selectColorRange img tr tg tb fuzziness).mask.data (4 * p) =
        colorRangeValue img tr tg tb fuzziness p ∧
      (selectColorRange img tr tg tb fuzziness).mask.data (4 * p + 1) =
        colorRangeValue img tr tg tb fuzziness p ∧
      (selectColorRange img tr tg tb fuzziness).mask.data (4 * p + 2) =
        colorRangeValue img tr tg tb fuzziness p ∧
      (selectColorRange img tr tg tb fuzziness).mask.data (4 * p + 3) =
        colorRangeValue img tr tg tb fuzziness p := by
  intro p hp
  refine ⟨?_, ?_, ?_, ?_⟩ <;>
    (show (selectColorRange img tr tg tb fuzziness).mask.data _ = _
     unfold selectColorRange
     dsimp only
     rw [if_pos (by rw [Nat.mul_assoc]; omega)])
  · rw [div4_0]
  · rw [div4_1]
  · rw [div4_2]
  · rw [show (4 * p + 3) / 4 = p from by omega]

theorem applySmartRadius_rgb (m : Buf) (edges : ℕ → ℚ) (zone : ℕ → Bool)
    (hm : MaskRGB m) : MaskRGB (applySmartRadius m edges zone) := by
  intro p hp
  have hpw : p < m.width * m.height := hp
  obtain ⟨h01, h12⟩ := hm p hpw
  by_cases hcond : zone p = true ∧ 1 / 2 < edges p
  · constructor
    · show (applySmartRadius m edges zone).data (4 * p) =
        (applySmartRadius m edges zone).data (4 * p + 1)
      unfold applySmartRadius
      dsimp only
      conv_lhs => rw [if_pos ⟨by rw [Nat.mul_assoc]; omega, by omega,
            by rw [div4_0]; exact hcond.1, by rw [div4_0]; exact hcond.2⟩]
      conv_rhs => rw [if_pos ⟨by rw [Nat.mul_assoc]; omega, by omega,
            by rw [div4_1]; exact hcond.1, by rw [div4_1]; exact hcond.2⟩]
      rw [div4_0, div4_1]
    · show (applySmartRadius m edges zone).data (4 * p + 1) =
        (applySmartRadius m edges zone).data (4 * p + 2)
      unfold applySmartRadius
      dsimp only
      conv_lhs => rw [if_pos ⟨by rw [Nat.mul_assoc]; omega, by omega,
            by rw [div4_1]; exact hcond.1, by rw [div4_1]; exact hcond.2⟩]
      conv_rhs => rw [if_pos ⟨by rw [Nat.mul_assoc]; omega, by omega,
            by rw [div4_2]; exact hcond.1, by rw [div4_2]; exact hcond.2⟩]
      rw [div4_1, div4_2]
  · constructor
    · show (applySmartRadius m edges zone).data (4 * p) =
        (applySmartRadius m edges zone).data (4 * p + 1)
      unfold applySmartRadius
      dsimp only
      rw [if_neg (fun hfull => hcond ⟨by have := hfull.2.2.1; rwa [div4_0] at this,
            by have := hfull.2.2.2; rwa [div4_0] at this⟩),
          if_neg (fun hfull => hcond ⟨by have := hfull.2.2.1; rwa [div4_1] at this,
            by have := hfull.2.2.2; rwa [div4_1] at this⟩)]
      exact h01
    · show (applySmartRadius m edges zone).data (4 * p + 1) =
        (applySmartRadius m edges zone).data (4 * p + 2)
      unfold applySmartRadius
      dsimp only
      rw [if_neg (fun hfull => hcond ⟨by have := hfull.2.2.1; rwa [div4_1] at this,
            by have := hfull.2.2.2; rwa [div4_1] at this⟩),
          if_neg (fun hfull => hcond ⟨by have := hfull.2.2.1; rwa [div4_2] at this,
            by have := hfull.2.2.2; rwa [div4_2] at this⟩)]
      exact h12

theorem applyContrast_rgb (m : Buf) (amount : ℚ) : MaskRGB (applyContrast m amount) := by
  intro p hp
  have hpw : p < m.width * m.height := hp
  constructor
  · show (applyContrast m amount).data (4 * p) = (applyContrast m amount).data (4 * p + 1)
    unfold applyContrast
    dsimp only
    rw [if_pos ⟨by rw [Nat.mul_assoc]; omega, by omega⟩,
        if_pos ⟨by rw [Nat.mul_assoc]; omega, by omega⟩, div4_0, div4_1]
  · show (applyContrast m amount).data (4 * p + 1) = (applyContrast m amount).data (4 * p + 2)
    unfold applyContrast
    dsimp only
    rw [if_pos ⟨by rw [Nat.mul_assoc]; omega, by omega⟩,
        if_pos ⟨by rw [Nat.mul_assoc]; omega, by omega⟩, div4_1, div4_2]

theorem refineEdge_rgb (s : Selection) (img : Buf) (o : RefineEdgeOptions)
    (hm : MaskRGB s.mask) : MaskRGB (refineEdge s img o).mask := by
  have s1 : ∀ m : Buf, MaskRGB m →
      MaskRGB (if 0 < o.radius then
        applySmartRadius m (computeEdgeMap img) (findEdgeZone s.mask o.radius) else m) := by
    intro m hm'
    split
    · exact applySmartRadius_rgb _ _ _ hm'
    · exact hm'
  have s2 : ∀ m : Buf, MaskRGB m →
      MaskRGB (if 0 < o.smooth then gaussianBlur m (o.smooth / 20) else m) := by
    intro m hm'
    split
    · exact gaussianBlur_rgb _ _ hm'
    · exact hm'
  have s3 : ∀ m : Buf, MaskRGB m →
      MaskRGB (if 0 < o.feather then gaussianBlur m o.feather else m) := by
    intro m hm'
    split
    · exact gaussianBlur_rgb _ _ hm'
    · exact hm'
  have s4 : ∀ m : Buf, MaskRGB m →
      MaskRGB (if 0 < o.contrast then applyContrast m (o.contrast / 50) else m) := by
    intro m hm'
    split
    · exact applyContrast_rgb _ _
    · exact hm'
  have s5 : ∀ m : Buf, MaskRGB m →
      MaskRGB (if o.shift ≠ 0 then
        (if 0 < o.shift then dilate m |o.shift / 10| else erode m |o.shift / 10|) else m) := by
    intro m hm'
    split
    · split
      · exact dilate_rgb _ _
      · exact erode_rgb _ _
    · exact hm'
  exact s5 _ (s4 _ (s3 _ (s2 _ (s1 _ hm))))

theorem qsStepWith_rgb (sched : List (ℚ × ℚ × ℕ) → List (ℚ × ℚ × ℕ) → List (ℚ × ℚ × ℕ))
    (P : QSParams) (st : QSState)
    (h : ∀ p, st.mask (4 * p) = st.mask (4 * p + 1) ∧
      st.mask (4 * p + 1) = st.mask (4 * p + 2)) :
    ∀ p, (qsStepWith sched P st).mask (4 * p) = (qsStepWith sched P st).mask (4 * p + 1) ∧
      (qsStepWith sched P st).mask (4 * p + 1) = (qsStepWith sched P st).mask (4 * p + 2) := by
  intro p
  rcases hq : st.queue with _ | ⟨⟨x, y, depth⟩, rest⟩
  · unfold qsStepWith
    rw [hq]
    exact h p
  · unfold qsStepWith
    rw [hq]
    dsimp only
    split_ifs with h1 h2 h3 h4 h5 h6
    all_goals try exact h p
    all_goals {
      show qsWrite P.mode _ st.mask (4 * p) = qsWrite P.mode _ st.mask (4 * p + 1) ∧
        qsWrite P.mode _ st.mask (4 * p + 1) = qsWrite P.mode _ st.mask (4 * p + 2)
      rcases hP : P.mode with _ | _ | _ | _
      rotate_right
      · exact ⟨(h p).1, (h p).2⟩
      all_goals {
        unfold qsWrite
        dsimp only
        constructor
        · rw [div4_0, div4_1]
          by_cases hc : p = ⌊y⌋.toNat * P.img.width + ⌊x⌋.toNat
          · rw [if_pos hc, if_pos hc]
          · rw [if_neg hc, if_neg hc]
            exact (h p).1
        · rw [div4_1, div4_2]
          by_cases hc : p = ⌊y⌋.toNat * P.img.width + ⌊x⌋.toNat
          · rw [if_pos hc, if_pos hc]
          · rw [if_neg hc, if_neg hc]
            exact (h p).2
      }
    }

theorem quickSelect_rgb (img : Buf) (sx sy radius : ℚ) (mode : SelectionMode)
    (existing : Option Buf)
    (hex : ∀ e, existing = some e → ∀ p, p < img.width * img.height →
      e.data (4 * p) = e.data (4 * p + 1) ∧ e.data (4 * p + 1) = e.data (4 * p + 2)) :
    MaskRGB (quickSelect img sx sy radius mode existing).mask := by
  have hinit : ∀ p, (qsInit img sx sy existing).mask (4 * p) =
      (qsInit img sx sy existing).mask (4 * p + 1) ∧
      (qsInit img sx sy existing).mask (4 * p + 1) =
      (qsInit img sx sy existing).mask (4 * p + 2) := by
    intro p
    rcases existing with _ | e
    · exact ⟨rfl, rfl⟩
    · show ((if 4 * p < 4 * img.width * img.height then e.data (4 * p) else 0) =
        if 4 * p + 1 < 4 * img.width * img.height then e.data (4 * p + 1) else 0) ∧
        ((if 4 * p + 1 < 4 * img.width * img.height then e.data (4 * p + 1) else 0) =
        if 4 * p + 2 < 4 * img.width * img.height then e.data (4 * p + 2) else 0)
      by_cases hp4 : p < img.width * img.height
      · rw [if_pos (by rw [Nat.mul_assoc]; omega), if_pos (by rw [Nat.mul_assoc]; omega),
            if_pos (by rw [Nat.mul_assoc]; omega)]
        exact hex e rfl p hp4
      · rw [if_neg (by rw [Nat.mul_assoc]; omega), if_neg (by rw [Nat.mul_assoc]; omega),
            if_neg (by rw [Nat.mul_assoc]; omega)]
        exact ⟨rfl, rfl⟩
  have hrun := qsRunWith_inv fifoSched (qsParams img sx sy radius mode)
    (fun st => ∀ p, st.mask (4 * p) = st.mask (4 * p + 1) ∧
      st.mask (4 * p + 1) = st.mask (4 * p + 2))
    (fun st h => qsStepWith_rgb fifoSched _ st h)
    (1 + 5 * img.width * img.height) (qsInit img sx sy existing) hinit
  intro p _
  exact hrun p

theorem selectSubjectFromSaliency_rgb (sal : ℕ → ℚ) (w h : ℕ) :
    MaskRGB (selectSubjectFromSaliency sal w h) := by
  show MaskRGB (erode (dilate _ 3) 3)
  exact erode_rgb _ _

/-- Counterexample for C3: `combineSelections` (like invert, grow/shrink,
feather/smooth, selectionFromAlpha and the morphology core) forces alpha to
255 regardless of the strength, so a pixel of strength 0 violates
`R = G = B = A = strength`. -/
theorem c3_counterexample :
    (combineSelections zeroSel1 zeroSel1 SelectionMode.intersect).mask.data 0 = 0 ∧
    (combineSelections zeroSel1 zeroSel1 SelectionMode.intersect).mask.data 3 = 255 :=
  ⟨rfl, rfl⟩

/-- Claim C3 (amended): every mask the engine produces satisfies
`R = G = B = strength` at every pixel (for the operations that copy input
pixels — quickSelect, invert, feather's identity case, refineEdge — given
the input mask satisfies it); the alpha channel is NOT the strength in
general: it is forced to 255 by the morphology core, combine, invert and
selectionFromAlpha, while `selectColorRange` writes the strength to all
four channels. -/
theorem c3_masks_rgb_equal :
    (∀ img sx sy radius mode existing,
      (∀ e, existing = some e → ∀ p, p < img.width * img.height →
        e.data (4 * p) = e.data (4 * p + 1) ∧ e.data (4 * p + 1) = e.data (4 * p + 2)) →
      MaskRGB (quickSelect img sx sy radius mode existing).mask) ∧
    (∀ sal w h, MaskRGB (selectSubjectFromSaliency sal w h)) ∧
    (∀ img tr tg tb fz, ∀ p, p < img.width * img.height →
      (selectColorRange img tr tg tb fz).mask.data (4 * p) =
        colorRangeValue img tr tg tb fz p ∧
      (selectColorRange img tr tg tb fz).mask.data (4 * p + 1) =
        colorRangeValue img tr tg tb fz p ∧
      (selectColorRange img tr tg tb fz).mask.data (4 * p + 2) =
        colorRangeValue img tr tg tb fz p ∧
      (selectColorRange img tr tg tb fz).mask.data (4 * p + 3) =
        colorRangeValue img tr tg tb fz p) ∧
    (∀ s pixels, MaskRGB (growSelection s pixels).mask) ∧
    (∀ s pixels, MaskRGB (shrinkSelection s pixels).mask) ∧
    (∀ s radius, MaskRGB s.mask → MaskRGB (featherSelection s radius).mask) ∧
    (∀ s radius, MaskRGB (smoothSelection s radius).mask) ∧
    (∀ s, MaskRGB s.mask → MaskRGB (invertSelection s).mask) ∧
    (∀ a b mode, MaskRGB (combineSelections a b mode).mask) ∧
    (∀ s img o, MaskRGB s.mask → MaskRGB (refineEdge s img o).mask) ∧
    (∀ img, MaskRGB (selectionFromAlpha img).mask) := by
  refine ⟨quickSelect_rgb, selectSubjectFromSaliency_rgb, selectColorRange_rgba,
    ?_, ?_, ?_, ?_, invertSelection_rgb, combineSelections_rgb, refineEdge_rgb,
    selectionFromAlpha_rgb⟩
  · intro s pixels
    exact dilate_rgb s.mask pixels
  · intro s pixels
    exact erode_rgb s.mask pixels
  · intro s radius hm
    exact gaussianBlur_rgb s.mask radius hm
  · intro s radius
    exact medianFilter_rgb s.mask radius

/-- Witness for C3's amended theorem: the hypothesis-carrying conjuncts
instantiated at concrete masks. -/
theorem c3_masks_rgb_equal_witness :
    MaskRGB (quickSelect imgGray1 0 0 1 SelectionMode.new (some fullSel1.mask)).mask ∧
    MaskRGB (featherSelection zeroSel1 1).mask ∧
    MaskRGB (invertSelection fullSel1).mask ∧
    MaskRGB (refineEdge zeroSel1 imgGray1
      ⟨0, 0, 0, 0, 0, false, 0⟩).mask :=
  ⟨c3_masks_rgb_equal.1 imgGray1 0 0 1 SelectionMode.new (some fullSel1.mask)
      (fun e he p hp => by
        cases he
        have hp1 : p < 1 := hp
        have hp0 : p = 0 := by omega
        subst hp0
        exact ⟨rfl, rfl⟩),
    (c3_masks_rgb_equal.2.2.2.2.2.1) zeroSel1 1 (by
      intro p hp
      have hp1 : p < 1 := hp
      have hp0 : p = 0 := by omega
      subst hp0
      exact ⟨rfl, rfl⟩),
    (c3_masks_rgb_equal.2.2.2.2.2.2.2.1) fullSel1 (by
      intro p hp
      have hp1 : p < 1 := hp
      have hp0 : p = 0 := by omega
      subst hp0
      exact ⟨rfl, rfl⟩),
    (c3_masks_rgb_equal.2.2.2.2.2.2.2.2.2.1) zeroSel1 imgGray1 _
      (by
        intro p hp
        have hp1 : p < 1 := hp
        have hp0 : p = 0 := by omega
        subst hp0
        exact ⟨rfl, rfl⟩)⟩

theorem fifoSched_ok : SchedOK fifoSched := by
  intro news rest q
  unfold fifoSched
  rw [List.mem_append]
  tauto

theorem lifoSched_ok : SchedOK lifoSched := by
  intro news rest q
  unfold lifoSched
  rw [List.mem_append, List.mem_reverse]

theorem floodStep_inv {sal : ℕ → ℚ} {w h : ℕ} {cut : ℚ} {vis0 : List ℕ} {seed : ℕ}
    {sched : List ℕ → List ℕ → List ℕ} (hs : SchedOK sched) {st : FloodState}
    (hI : FloodInv sal w h cut vis0 seed st) :
    FloodInv sal w h cut vis0 seed (floodStep sal w h cut sched st) := by
  rcases hq : st.work with _ | ⟨pos, rest⟩
  · unfold floodStep
    rw [hq]
    exact hI
  · unfold floodStep
    rw [hq]
    dsimp only
    split_ifs with hvis hsal
    · refine ⟨hI.regionReach, ?_, hI.vis0Sub, ?_, hI.visMem, ?_⟩
      · intro q hqr
        exact hI.workSrc q (by rw [hq]; exact List.mem_cons_of_mem _ hqr)
      · intro p hp q hqn
        rcases hI.regionNbrs p hp q hqn with hv | hw
        · exact Or.inl hv
        · rw [hq] at hw
          rcases List.mem_cons.mp hw with rfl | hw2
          · exact Or.inl hvis
          · exact Or.inr hw2
      · rcases hI.seedIn with hv | hw
        · exact Or.inl hv
        · rw [hq] at hw
          rcases List.mem_cons.mp hw with rfl | hw2
          · exact Or.inl hvis
          · exact Or.inr hw2
    · refine ⟨hI.regionReach, ?_, ?_, ?_, ?_, ?_⟩
      · intro q hqr
        exact hI.workSrc q (by rw [hq]; exact List.mem_cons_of_mem _ hqr)
      · intro v hv
        exact List.mem_cons_of_mem _ (hI.vis0Sub v hv)
      · intro p hp q hqn
        rcases hI.regionNbrs p hp q hqn with hv | hw
        · exact Or.inl (List.mem_cons_of_mem _ hv)
        · rw [hq] at hw
          rcases List.mem_cons.mp hw with rfl | hw2
          · exact Or.inl (List.mem_cons_self _ _)
          · exact Or.inr hw2
      · intro q hqv
        rcases List.mem_cons.mp hqv with rfl | hold
        · exact Or.inr (Or.inr hsal)
        · exact hI.visMem q hold
      · rcases hI.seedIn with hv | hw
        · exact Or.inl (List.mem_cons_of_mem _ hv)
        · rw [hq] at hw
          rcases List.mem_cons.mp hw with rfl | hw2
          · exact Or.inl (List.mem_cons_self _ _)
          · exact Or.inr hw2
    · have hnv0 : pos ∉ vis0 := fun hmem => hvis (hI.vis0Sub pos hmem)
      have hsal' : cut ≤ sal pos := le_of_not_lt hsal
      have hreachpos : FloodReach sal w h cut vis0 seed pos := by
        rcases hI.workSrc pos (by rw [hq]; exact List.mem_cons_self _ _) with
          rfl | ⟨p, hp, hnbr⟩
        · exact FloodReach.seedR hsal' hnv0
        · exact FloodReach.stepR (hI.regionReach p hp) hnbr hsal' hnv0
      refine ⟨?_, ?_, ?_, ?_, ?_, ?_⟩
      · intro p hp
        rcases List.mem_cons.mp hp with rfl | hold
        · exact hreachpos
        · exact hI.regionReach p hold
      · intro q hqw
        rcases (hs _ _ q).mp hqw with hnew | hrest
        · exact Or.inr ⟨pos, List.mem_cons_self _ _, hnew⟩
        · rcases hI.workSrc q (by rw [hq]; exact List.mem_cons_of_mem _ hrest) with
            h1 | ⟨p, hp, hnbr⟩
          · exact Or.inl h1
          · exact Or.inr ⟨p, List.mem_cons_of_mem _ hp, hnbr⟩
      · intro v hv
        exact List.mem_cons_of_mem _ (hI.vis0Sub v hv)
      · intro p hp q hqn
        rcases List.mem_cons.mp hp with rfl | hold
        · exact Or.inr ((hs _ _ q).mpr (Or.inl hqn))
        · rcases hI.regionNbrs p hold q hqn with hv | hw
          · exact Or.inl (List.mem_cons_of_mem _ hv)
          · rw [hq] at hw
            rcases List.mem_cons.mp hw with rfl | hw2
            · exact Or.inl (List.mem_cons_self _ _)
            · exact Or.inr ((hs _ _ q).mpr (Or.inr hw2))
      · intro q hqv
        rcases List.mem_cons.mp hqv with rfl | hold
        · exact Or.inr (Or.inl (List.mem_cons_self _ _))
        · rcases hI.visMem q hold with h1 | h2 | h3
          · exact Or.inl h1
          · exact Or.inr (Or.inl (List.mem_cons_of_mem _ h2))
          · exact Or.inr (Or.inr h3)
      · rcases hI.seedIn with hv | hw
        · exact Or.inl (List.mem_cons_of_mem _ hv)
        · rw [hq] at hw
          rcases List.mem_cons.mp hw with rfl | hw2
          · exact Or.inl (List.mem_cons_self _ _)
          · exact Or.inr ((hs _ _ seed).mpr (Or.inr hw2))

theorem floodRun_inv {sal : ℕ → ℚ} {w h : ℕ} {cut : ℚ} {vis0 : List ℕ} {seed : ℕ}
    {sched : List ℕ → List ℕ → List ℕ} (hs : SchedOK sched) :
    ∀ fuel st, FloodInv sal w h cut vis0 seed st →
      FloodInv sal w h cut vis0 seed (floodRun sal w h cut sched fuel st) := by
  intro fuel
  induction fuel with
  | zero => intro st hI; exact hI
  | succ n ih =>
    intro st hI
    unfold floodRun
    split
    · exact hI
    · exact ih _ (floodStep_inv hs hI)

theorem floodInit_inv (sal : ℕ → ℚ) (w h : ℕ) (cut : ℚ) (vis0 : List ℕ) (seed : ℕ) :
    FloodInv sal w h cut vis0 seed ⟨vis0, [], 0, [seed]⟩ := by
  refine ⟨?_, ?_, ?_, ?_, ?_, ?_⟩
  · intro p hp
    cases hp
  · intro q hqw
    rcases List.mem_cons.mp hqw with rfl | h2
    · exact Or.inl rfl
    · cases h2
  · intro v hv
    exact hv
  · intro p hp
    cases hp
  · intro q hq
    exact Or.inl hq
  · exact Or.inr (List.mem_cons_self _ _)

theorem flood_complete_region {sal : ℕ → ℚ} {w h : ℕ} {cut : ℚ} {vis0 : List ℕ}
    {seed : ℕ} {st : FloodState}
    (hI : FloodInv sal w h cut vis0 seed st) (hdone : st.work = []) :
    ∀ p, p ∈ st.region ↔ FloodReach sal w h cut vis0 seed p := by
  intro p
  constructor
  · exact hI.regionReach p
  · intro hreach
    induction hreach with
    | seedR hsal hnv0 =>
      rcases hI.seedIn with hv | hw
      · rcases hI.visMem seed hv with h1 | h2 | h3
        · exact absurd h1 hnv0
        · exact h2
        · exact absurd h3 (not_lt.mpr hsal)
      · rw [hdone] at hw
        cases hw
    | stepR hp hnbr hsal hnv0 ih =>
      rcases hI.regionNbrs _ ih _ hnbr with hv | hw
      · rcases hI.visMem _ hv with h1 | h2 | h3
        · exact absurd h1 hnv0
        · exact h2
        · exact absurd h3 (not_lt.mpr hsal)
      · rw [hdone] at hw
        cases hw

set_option maxRecDepth 40000 in
unseal Rat.add Rat.mul Rat.inv Rat.sub in
/-- Counterexample for C7: on the 3×3 image that is black except for the
white pixel `(0, 1)`, seed `(1, 1)` and radius 2, the source's FIFO
traversal visits `(0, 1)` at depth 1 and accepts it unconditionally
(mask value 255), while the stack-discipline variant of the same loop first
reaches `(0, 1)` along a longer path at depth 3, where the colour test
rejects it (mask value 0): traversal order does change which pixels are
selected. -/
theorem c7_counterexample :
    (quickSelect imgCross3 1 1 2 SelectionMode.new none).mask.data 12 = 255 ∧
    (quickSelectStack imgCross3 1 1 2 SelectionMode.new none).mask.data 12 = 0 :=
  ⟨by decide, by decide⟩

/-- Claim C7 (amended): every operation is a pure function of its inputs
(determinism holds), and `selectSubject`'s flood fill is traversal-order
independent: a completed stack run and a completed queue run of the flood
loop select exactly the same region (both compute the `FloodReach` set).
`quickSelect`'s depth-based tests, however, make its output depend on the
FIFO order — see the counterexample. -/
theorem c7_flood_order_independent (sal : ℕ → ℚ) (w h : ℕ) (cut : ℚ)
    (vis0 : List ℕ) (seed : ℕ) (f1 f2 : ℕ)
    (h1 : (floodRun sal w h cut lifoSched f1 ⟨vis0, [], 0, [seed]⟩).work = [])
    (h2 : (floodRun sal w h cut fifoSched f2 ⟨vis0, [], 0, [seed]⟩).work = []) :
    ∀ p, p ∈ (floodRun sal w h cut lifoSched f1 ⟨vis0, [], 0, [seed]⟩).region ↔
      p ∈ (floodRun sal w h cut fifoSched f2 ⟨vis0, [], 0, [seed]⟩).region := by
  intro p
  have hI1 := floodRun_inv lifoSched_ok f1 ⟨vis0, [], 0, [seed]⟩
    (floodInit_inv sal w h cut vis0 seed)
  have hI2 := floodRun_inv fifoSched_ok f2 ⟨vis0, [], 0, [seed]⟩
    (floodInit_inv sal w h cut vis0 seed)
  rw [flood_complete_region hI1 h1 p, flood_complete_region hI2 h2 p]

set_option maxRecDepth 40000 in
unseal Rat.add Rat.mul Rat.inv Rat.sub in
/-- Witness for C7's amended theorem: both disciplines, run to completion on
the concrete 12×12 saliency grid, select the same region. -/
theorem c7_flood_order_independent_witness :
    (floodRun sal12 12 12 ((7 / 20) * (4 / 5)) lifoSched 721 ⟨[], [], 0, [13]⟩).work = [] ∧
    (floodRun sal12 12 12 ((7 / 20) * (4 / 5)) fifoSched 721 ⟨[], [], 0, [13]⟩).work = [] ∧
    (13 ∈ (floodRun sal12 12 12 ((7 / 20) * (4 / 5)) lifoSched 721 ⟨[], [], 0, [13]⟩).region ↔
      13 ∈ (floodRun sal12 12 12 ((7 / 20) * (4 / 5)) fifoSched 721 ⟨[], [], 0, [13]⟩).region) :=
  ⟨by decide, by decide,
    c7_flood_order_independent sal12 12 12 ((7 / 20) * (4 / 5)) [] 13 721 721
      (by decide) (by decide) 13⟩

end ZPaint
